import Mathlib

/-!
Shallow embedding of the cppLisp interpreter (src/main.cpp).

Modelling conventions:
* A `lisp_cell *` (a possibly-null pointer to an immutable cell) is a `Cell`;
  the constructor `nullv` is the null pointer.  Dereferencing a null pointer
  is undefined behaviour in the source; each call site that could do so is
  modelled as a stuck computation (`none`).
* The four sentinel cells `false_sexpr`, `true_sexpr`, `nil_sexpr`, `bad_sexpr`
  are process-wide singletons compared by pointer identity in the source; they
  are given their own constructors so that identity comparison is constructor
  equality, while a reader-built symbol such as `symv "#f"` stays distinct from
  the sentinel, exactly as two distinct heap cells are distinct pointers.
  The sentinels still answer `isSymbol` with their text (they hold a
  `std::string` variant), which `symStr` reflects.
* `lisp_int_t` is `int64_t`; arithmetic is modelled on unbounded `Int`
  (signed overflow is undefined behaviour in the source, so every behaviour
  the source defines agrees with `Int`).  `double` payloads are never
  inspected by any code path a claim touches, so `fltv` is an opaque constant.
* `environment` objects are mutable and shared by pointer; the heap of
  environments is a list `Heap` indexed by allocation order, an environment
  pointer is an index.  `eval` can diverge (recursive closures), so the
  evaluator takes fuel; a `none` result means "out of fuel or undefined
  behaviour reached", never a value the program produced.
* Environment-chain walks (`FindSymbol`, `UpdateSymbol`) are given
  `envs.length` fuel: every reachable heap chains an environment only to
  previously allocated ones, so a chain is acyclic and shorter than the heap.
* `delete(new_env)` in `eval_lambda` is modelled as a no-op: a freed
  environment is never legally accessed afterwards, and no claim exercises
  the use-after-free that a retained closure would cause.
-/

namespace CppLisp

/-- The native procedures registered by `add_globals` (`proc_type` values). -/
inductive Proc where
  | padd | psub | pmul | pdiv
  | pgt | pge | plt | ple | peq | pne
  | pbegin | pcar | pcdr | pcons | pdefine | pif | plist | psetq
  deriving DecidableEq, Repr

/-- `lisp_cell *`: either the null pointer (`nullv`) or a cell of the tagged
union.  `cellsv` is the `lisp_cells` (cons) variant with possibly-null car/cdr
pointers; `lamv` is a cell holding a `lambda *` (params, body, captured
environment pointer). -/
inductive Cell where
  | nullv
  | intv (n : Int)
  | fltv
  | strv (s : String)
  | symv (s : String)
  | procv (p : Proc)
  | cellsv (a d : Cell)
  | lamv (ps bd : Cell) (e : Nat)
  | sFalse | sTrue | sNil | sBad
  deriving DecidableEq, Repr

namespace Cell

/-- `lisp_cell::car`: null unless the cell is the `lisp_cells` variant. -/
def carF : Cell → Cell
  | cellsv a _ => a
  | _ => nullv

/-- `lisp_cell::cdr`: null unless the cell is the `lisp_cells` variant. -/
def cdrF : Cell → Cell
  | cellsv _ d => d
  | _ => nullv

/-- `lisp_cell::isLispCells`. -/
def isCellsF : Cell → Bool
  | cellsv _ _ => true
  | _ => false

/-- `lisp_cell::isAtom` is the negation of `isLispCells`. -/
def isAtomF (c : Cell) : Bool := !c.isCellsF

/-- `lisp_cell::isConstant`: integer, double or `const char *` payload. -/
def isConstantF : Cell → Bool
  | intv _ => true
  | fltv => true
  | strv _ => true
  | _ => false

/-- `getValue<std::string>` (also `isSymbol`): the `std::string` variant.
The four sentinels are `std::string` cells holding their printed names. -/
def symStr : Cell → Option String
  | symv s => some s
  | sFalse => some "#f"
  | sTrue => some "#t"
  | sNil => some "#nil"
  | sBad => some "#error"
  | _ => none

/-- `getValue<lisp_int_t>`. -/
def asInt : Cell → Option Int
  | intv n => some n
  | _ => none

end Cell

/-- `hasTwoOperands`: the tail is non-null with non-null car and cdr. -/
def hasTwoOperandsF : Cell → Bool
  | Cell.nullv => false
  | c => !(c.carF = Cell.nullv) && !(c.cdrF = Cell.nullv)

/-- One `environment` node: the `sym_map` (association of symbol text with a
possibly-null cell pointer) plus the `outer` pointer (an index into the heap,
absent for the global environment). -/
structure Env where
  table : List (String × Cell)
  outer : Option Nat
  deriving DecidableEq, Repr

/-- The heap of environments; an `environment *` is an index into this list. -/
abbrev Heap := List Env

/-- `std::map::find` on the symbol table. -/
def lookupTable : List (String × Cell) → String → Option Cell
  | [], _ => none
  | (k, v) :: t, s => if k = s then some v else lookupTable t s

/-- `std::map` insert-or-assign on the symbol table. -/
def setTable : List (String × Cell) → String → Cell → List (String × Cell)
  | [], s, v => [(s, v)]
  | (k, w) :: t, s, v => if k = s then (k, v) :: t else (k, w) :: setTable t s v

/-- `environment::FindSymbol`: look up locally, else delegate to `outer`.
`none` = the chain walk ran out of fuel (unreachable on well-formed heaps);
`some none` = not found anywhere; `some (some v)` = found with value `v`.
(The `undefined_symbols` diagnostic list only affects console output.) -/
def findSymbol : Nat → Heap → Nat → String → Option (Option Cell)
  | 0, _, _, _ => none
  | fuel + 1, st, e, s =>
    match st[e]? with
    | none => none
    | some env =>
      match lookupTable env.table s with
      | some v => some (some v)
      | none =>
        match env.outer with
        | some o => findSymbol fuel st o s
        | none => some none

/-- `environment::UpdateSymbol`: overwrite a local binding if present; else
insert locally when `current_scope_only` (define), else delegate to `outer`;
at the root without a binding, fail.  Returns the C++ `bool` result and the
updated heap; `none` = fuel ran out on the chain walk. -/
def updateSymbol : Nat → Heap → Nat → String → Cell → Bool → Option (Bool × Heap)
  | 0, _, _, _, _, _ => none
  | fuel + 1, st, e, s, v, current_scope_only =>
    match st[e]? with
    | none => none
    | some env =>
      match lookupTable env.table s with
      | some _ => some (true, st.set e ⟨setTable env.table s v, env.outer⟩)
      | none =>
        if current_scope_only then
          some (true, st.set e ⟨setTable env.table s v, env.outer⟩)
        else
          match env.outer with
          | some o => updateSymbol fuel st o s v false
          | none => some (false, st)

/-- The global symbol table built by `add_globals`, in insertion order. -/
def globalTable : List (String × Cell) :=
  [ ("nil", Cell.sNil),
    ("#f", Cell.sFalse),
    ("#t", Cell.sTrue),
    ("+", Cell.procv Proc.padd),
    ("-", Cell.procv Proc.psub),
    ("*", Cell.procv Proc.pmul),
    ("/", Cell.procv Proc.pdiv),
    (">", Cell.procv Proc.pgt),
    ("<", Cell.procv Proc.plt),
    ("<=", Cell.procv Proc.ple),
    (">=", Cell.procv Proc.pge),
    ("eq", Cell.procv Proc.peq),
    ("ne", Cell.procv Proc.pne),
    ("begin", Cell.procv Proc.pbegin),
    ("car", Cell.procv Proc.pcar),
    ("cdr", Cell.procv Proc.pcdr),
    ("cons", Cell.procv Proc.pcons),
    ("define", Cell.procv Proc.pdefine),
    ("if", Cell.procv Proc.pif),
    ("list", Cell.procv Proc.plist),
    ("setq", Cell.procv Proc.psetq) ]

/-- The process-start heap: just the global environment (index 0). -/
def stdHeap : Heap := [⟨globalTable, none⟩]

/-- `makeLambda`: validate the `(lambda (params) body)` shape and build the
closure cell, or return the null pointer on a malformed shape. -/
def makeLambdaF (sexpr : Cell) (env : Nat) : Cell :=
  let c := sexpr.cdrF
  if c = Cell.nullv ∨ c.isCellsF = false ∨
     (¬ c.carF = Cell.nullv ∧ c.carF.isCellsF = false) ∨ c.cdrF = Cell.nullv then
    Cell.nullv
  else
    Cell.lamv c.carF c.cdrF env

mutual

/-- `eval`: evaluate an S-expression.  Fuel bounds the call depth; `none`
means out of fuel or undefined behaviour, never a produced value. -/
def evalF : Nat → Cell → Nat → Heap → Option (Cell × Heap)
  | 0, _, _, _ => none
  | fuel + 1, sexpr, env, st =>
    if sexpr = Cell.nullv ∨ sexpr = Cell.sNil ∨ sexpr = Cell.sBad ∨
       sexpr.isConstantF = true then
      some (sexpr, st)
    else if sexpr.isAtomF then
      match sexpr.symStr with
      | some s =>
        match findSymbol st.length st env s with
        | none => none
        | some (some val) => some (val, st)
        | some none => some (Cell.sNil, st)
      | none => some (Cell.sNil, st)
    else
      let car := sexpr.carF
      if car = Cell.nullv ∨ car = Cell.sNil ∨ car = Cell.sBad ∨
         car.isConstantF = true then
        some (Cell.sBad, st)
      else
        match car.symStr with
        | some s =>
          if s = "quote" then some (sexpr.cdrF, st)
          else if s = "lambda" then some (makeLambdaF sexpr env, st)
          else
            match findSymbol st.length st env s with
            | none => none
            | some none => some (Cell.sBad, st)
            | some (some val) =>
              match val with
              | Cell.lamv ps bd le => eval_lambdaF fuel ps bd le sexpr.cdrF st
              | Cell.procv p => applyProcF fuel p sexpr.cdrF env st
              | _ => some (Cell.nullv, st)
        | none => some (Cell.nullv, st)
termination_by structural f _ _ _ => f

/-- Dispatch of a `proc_type` function pointer to its builtin
(`proc_add` .. `eval_setq` as registered by `add_globals`). -/
def applyProcF : Nat → Proc → Cell → Nat → Heap → Option (Cell × Heap)
  | 0, _, _, _, _ => none
  | fuel + 1, p, tail, env, st =>
    match p with
    | Proc.padd => proc_arith_mainF fuel (fun a b => a + b) tail env st
    | Proc.psub => proc_arith_mainF fuel (fun a b => a - b) tail env st
    | Proc.pmul => proc_arith_mainF fuel (fun a b => a * b) tail env st
    | Proc.pdiv => proc_arith_mainF fuel (fun a b => Int.tdiv a b) tail env st
    | Proc.pgt => proc_compare_mainF fuel (fun a b => decide (a > b)) tail env st
    | Proc.pge => proc_compare_mainF fuel (fun a b => decide (a ≥ b)) tail env st
    | Proc.plt => proc_compare_mainF fuel (fun a b => decide (a < b)) tail env st
    | Proc.ple => proc_compare_mainF fuel (fun a b => decide (a ≤ b)) tail env st
    | Proc.peq => proc_compare_mainF fuel (fun a b => decide (a = b)) tail env st
    | Proc.pne => proc_compare_mainF fuel (fun a b => decide (¬ a = b)) tail env st
    | Proc.pbegin => eval_beginF fuel tail env st
    | Proc.pcar => eval_carF fuel tail env st
    | Proc.pcdr => eval_cdrF fuel tail env st
    | Proc.pcons => eval_consF fuel tail env st
    | Proc.pdefine => eval_setF fuel tail env st true
    | Proc.pif => eval_ifF fuel tail env st
    | Proc.plist => eval_listF fuel tail env st
    | Proc.psetq => eval_setF fuel tail env st false
termination_by structural f _ _ _ _ => f

/-- `proc_arith_impl`: recursive reduction of an operand chain.  Result
`some (some n, st)` models "returned `true` with the by-reference `n` set";
`some (none, st)` models "returned `false`". -/
def proc_arith_implF : Nat → (Int → Int → Int) → Cell → Nat → Heap →
    Option (Option Int × Heap)
  | 0, _, _, _, _ => none
  | fuel + 1, op, sexpr, env, st =>
    match sexpr with
    | Cell.nullv => some (none, st)
    | _ =>
      if sexpr.isAtomF then some (sexpr.asInt, st)
      else
        match evalF fuel sexpr.carF env st with
        | none => none
        | some (cv, st1) =>
          match proc_arith_implF fuel op cv env st1 with
          | none => none
          | some (none, st2) => some (none, st2)
          | some (some n1, st2) =>
            if sexpr.cdrF = Cell.nullv then some (some n1, st2)
            else
              match evalF fuel sexpr.cdrF env st2 with
              | none => none
              | some (dv, st3) =>
                match dv.asInt with
                | some n2 => some (some (op n1 n2), st3)
                | none =>
                  match proc_arith_implF fuel op sexpr.cdrF env st3 with
                  | none => none
                  | some (none, st4) => some (none, st4)
                  | some (some n2, st4) => some (some (op n1 n2), st4)
termination_by structural f _ _ _ _ => f

/-- `proc_arith_main`: wrap the reduction result in a fresh integer cell, or
surface failure as the `#f` sentinel. -/
def proc_arith_mainF : Nat → (Int → Int → Int) → Cell → Nat → Heap →
    Option (Cell × Heap)
  | 0, _, _, _, _ => none
  | fuel + 1, op, sexpr, env, st =>
    match proc_arith_implF fuel op sexpr env st with
    | none => none
    | some (some n, st1) => some (Cell.intv n, st1)
    | some (none, st1) => some (Cell.sFalse, st1)
termination_by structural f _ _ _ _ => f

/-- `proc_compare_impl`: like `proc_arith_impl` but with a boolean result;
`some (some n, st)` = returned `true` with by-reference `n`, `some (none, st)`
= returned `false`. -/
def proc_compare_implF : Nat → (Int → Int → Bool) → Cell → Nat → Heap →
    Option (Option Int × Heap)
  | 0, _, _, _, _ => none
  | fuel + 1, op, sexpr, env, st =>
    match sexpr with
    | Cell.nullv => some (none, st)
    | _ =>
      if sexpr.isAtomF then some (sexpr.asInt, st)
      else
        match evalF fuel sexpr.carF env st with
        | none => none
        | some (cv, st1) =>
          match proc_compare_implF fuel op cv env st1 with
          | none => none
          | some (none, st2) => some (none, st2)
          | some (some n, st2) =>
            if sexpr.cdrF = Cell.nullv then some (some n, st2)
            else
              match evalF fuel sexpr.cdrF env st2 with
              | none => none
              | some (dv, st3) =>
                match dv.asInt with
                | some n2 => some (if op n n2 then some n else none, st3)
                | none =>
                  match proc_compare_implF fuel op sexpr.cdrF env st3 with
                  | none => none
                  | some (none, st4) => some (none, st4)
                  | some (some n2, st4) =>
                    some (if op n n2 then some n else none, st4)
termination_by structural f _ _ _ _ => f

/-- `proc_compare_main`: `#t` on a true reduction, else `#f`. -/
def proc_compare_mainF : Nat → (Int → Int → Bool) → Cell → Nat → Heap →
    Option (Cell × Heap)
  | 0, _, _, _, _ => none
  | fuel + 1, op, sexpr, env, st =>
    match proc_compare_implF fuel op sexpr env st with
    | none => none
    | some (some _, st1) => some (Cell.sTrue, st1)
    | some (none, st1) => some (Cell.sFalse, st1)
termination_by structural f _ _ _ _ => f

/-- `eval_car`: evaluate the operand; error sentinel unless it is a pair. -/
def eval_carF : Nat → Cell → Nat → Heap → Option (Cell × Heap)
  | 0, _, _, _ => none
  | fuel + 1, sexpr, env, st =>
    match sexpr with
    | Cell.nullv => some (Cell.nullv, st)
    | _ =>
      match evalF fuel sexpr env st with
      | none => none
      | some (v, st1) =>
        if v = Cell.nullv ∨ v.isAtomF = true then some (Cell.sBad, st1)
        else some (v.carF, st1)
termination_by structural f _ _ _ => f

/-- `eval_cdr`: evaluate the operand; error sentinel unless it is a pair. -/
def eval_cdrF : Nat → Cell → Nat → Heap → Option (Cell × Heap)
  | 0, _, _, _ => none
  | fuel + 1, sexpr, env, st =>
    match sexpr with
    | Cell.nullv => some (Cell.nullv, st)
    | _ =>
      match evalF fuel sexpr env st with
      | none => none
      | some (v, st1) =>
        if v = Cell.nullv ∨ v.isAtomF = true then some (Cell.sBad, st1)
        else some (v.cdrF, st1)
termination_by structural f _ _ _ => f

/-- `eval_cons`: evaluate head and tail of the operand pair and build a new
pair.  A null operand would be dereferenced: undefined behaviour. -/
def eval_consF : Nat → Cell → Nat → Heap → Option (Cell × Heap)
  | 0, _, _, _ => none
  | fuel + 1, sexpr, env, st =>
    match sexpr with
    | Cell.nullv => none
    | _ =>
      match evalF fuel sexpr.carF env st with
      | none => none
      | some (a, st1) =>
        match evalF fuel sexpr.cdrF env st1 with
        | none => none
        | some (d, st2) => some (Cell.cellsv a d, st2)
termination_by structural f _ _ _ => f

/-- `eval_list`: recursively evaluate every element of a possibly nested
argument structure.  A null cdr would be dereferenced: undefined behaviour. -/
def eval_listF : Nat → Cell → Nat → Heap → Option (Cell × Heap)
  | 0, _, _, _ => none
  | fuel + 1, sexpr, env, st =>
    match sexpr with
    | Cell.nullv => some (Cell.nullv, st)
    | _ =>
      if sexpr.isAtomF then evalF fuel sexpr env st
      else
        match eval_listF fuel sexpr.carF env st with
        | none => none
        | some (a, st1) =>
          match sexpr.cdrF with
          | Cell.nullv => none
          | d =>
            if d.isCellsF then
              match eval_listF fuel d env st1 with
              | none => none
              | some (dd, st2) => some (Cell.cellsv a dd, st2)
            else
              match evalF fuel d env st1 with
              | none => none
              | some (dv, st2) => some (Cell.cellsv a (Cell.cellsv dv Cell.nullv), st2)
termination_by structural f _ _ _ => f

/-- `eval_if`: evaluate the condition; any result not identical to the `#f`
sentinel selects the then-branch, `#f` selects the else-branch; fewer than
two tail operands is a malformed call. -/
def eval_ifF : Nat → Cell → Nat → Heap → Option (Cell × Heap)
  | 0, _, _, _ => none
  | fuel + 1, sexpr, env, st =>
    if hasTwoOperandsF sexpr = false then some (Cell.sBad, st)
    else
      match evalF fuel sexpr.carF env st with
      | none => none
      | some (v, st1) =>
        if ¬ v = Cell.sFalse then evalF fuel sexpr.cdrF.carF env st1
        else evalF fuel sexpr.cdrF.cdrF env st1
termination_by structural f _ _ _ => f

/-- `eval_set` (shared by `define` and `setq`): evaluate the value, then
`UpdateSymbol` with `current_scope_only = is_define`; on failure report and
return the nil sentinel. -/
def eval_setF : Nat → Cell → Nat → Heap → Bool → Option (Cell × Heap)
  | 0, _, _, _, _ => none
  | fuel + 1, sexpr, env, st, is_define =>
    if hasTwoOperandsF sexpr = false then some (Cell.sBad, st)
    else
      match sexpr.carF.symStr with
      | none => some (Cell.sBad, st)
      | some s =>
        match evalF fuel sexpr.cdrF env st with
        | none => none
        | some (val, st1) =>
          match updateSymbol st1.length st1 env s val is_define with
          | none => none
          | some (true, st2) => some (val, st2)
          | some (false, st2) => some (Cell.sNil, st2)
termination_by structural f _ _ _ _ => f

/-- `eval_begin`: evaluate the first tail element; if a second tail slot is
present evaluate it and return that instead. -/
def eval_beginF : Nat → Cell → Nat → Heap → Option (Cell × Heap)
  | 0, _, _, _ => none
  | fuel + 1, sexpr, env, st =>
    match sexpr with
    | Cell.nullv => some (Cell.nullv, st)
    | _ =>
      if sexpr.isAtomF then evalF fuel sexpr env st
      else
        match evalF fuel sexpr.carF env st with
        | none => none
        | some (v, st1) =>
          if sexpr.cdrF = Cell.nullv then some (v, st1)
          else evalF fuel sexpr.cdrF env st1
termination_by structural f _ _ _ => f

/-- `eval_lambda`: build the invocation environment from the parameter spec
and the unevaluated arguments (evaluated against the captured environment,
which is the `outer` passed to the `environment` constructor), then evaluate
the body in it. -/
def eval_lambdaF : Nat → Cell → Cell → Nat → Cell → Heap → Option (Cell × Heap)
  | 0, _, _, _, _, _ => none
  | fuel + 1, ps, bd, le, args, st =>
    match bindParamsF fuel ps args le st [] with
    | none => none
    | some (tbl, st1) =>
      let newId := st1.length
      evalF fuel bd newId (st1 ++ [⟨tbl, some le⟩])
termination_by structural f _ _ _ _ _ => f

/-- The `environment(params, args, outer)` constructor loop: walk the
parameter spec and argument list in lock-step, evaluating each argument under
`outer`; a bare-symbol parameter spec binds the whole remaining argument list
and stops.  Null dereferences (argument list shorter than the parameters, or
a null parameter slot) are undefined behaviour. -/
def bindParamsF : Nat → Cell → Cell → Nat → Heap → List (String × Cell) →
    Option (List (String × Cell) × Heap)
  | 0, _, _, _, _, _ => none
  | fuel + 1, params, args, outer, st, acc =>
    match params with
    | Cell.nullv => some (acc, st)
    | _ =>
      match params.symStr with
      | some p =>
        match evalF fuel args outer st with
        | none => none
        | some (v, st1) => some (setTable acc p v, st1)
      | none =>
        match params.carF with
        | Cell.nullv => none
        | pcar =>
          match pcar.symStr with
          | some p =>
            match args with
            | Cell.nullv => none
            | _ =>
              match evalF fuel args.carF outer st with
              | none => none
              | some (v, st1) =>
                bindParamsF fuel params.cdrF args.cdrF outer st1 (setTable acc p v)
          | none =>
            match args with
            | Cell.nullv => none
            | _ => bindParamsF fuel params.cdrF args.cdrF outer st acc
termination_by structural f _ _ _ _ _ => f

end

/-! ### Operand chains and their mathematical meaning

The tree builder places each object of a parenthesised list in the car slot
of a fresh pair, except the last, which lands directly in the tail slot
(`makeLispTree` returns `car` alone when the rest of the tree is empty).  A
flat operand sequence `x1 x2 ... xn` therefore reaches a builtin as
`chainCells x1 [x2, ..., xn]`. -/

/-- The reader's chain shape for a non-empty sequence of objects: every
object in a car slot except the last, which sits in the final tail slot. -/
def chainCells : Cell → List Cell → Cell
  | c, [] => c
  | c, d :: r => Cell.cellsv c (chainCells d r)

/-- A chain of integer literals. -/
def intChain (x : Int) (xs : List Int) : Cell :=
  chainCells (Cell.intv x) (xs.map Cell.intv)

/-- The right fold the dual-path reduction computes over a literal chain:
`op x1 (op x2 (... (op x_pred xn)))`. -/
def foldChain (op : Int → Int → Int) : Int → List Int → Int
  | x, [] => x
  | x, y :: r => op x (foldChain op y r)

/-- "All adjacent pairs satisfy the relation" for a non-empty operand chain. -/
def adjChain (op : Int → Int → Bool) : Int → List Int → Bool
  | _, [] => true
  | x, y :: r => op x y && adjChain op y r

/-! ### Evaluation lemmas -/

lemma evalF_intv (f : Nat) (n : Int) (env : Nat) (st : Heap) :
    evalF (f + 1) (Cell.intv n) env st = some (Cell.intv n, st) := by
  simp [evalF, Cell.isConstantF]

lemma evalF_const_head (f : Nat) (a d : Cell) (env : Nat) (st : Heap)
    (h : a.isConstantF = true) :
    evalF (f + 1) (Cell.cellsv a d) env st = some (Cell.sBad, st) := by
  cases a with
  | intv n => rfl
  | fltv => rfl
  | strv s => rfl
  | _ => simp [Cell.isConstantF] at h

/-- Dispatching a call form whose head symbol resolves to a native procedure. -/
lemma evalF_proc_head (f : Nat) (s : String) (p : Proc) (tail : Cell)
    (env : Nat) (st : Heap) (hq : ¬ s = "quote") (hl : ¬ s = "lambda")
    (hv : findSymbol st.length st env s = some (some (Cell.procv p))) :
    evalF (f + 1) (Cell.cellsv (Cell.symv s) tail) env st
      = applyProcF f p tail env st := by
  simp [evalF, Cell.isAtomF, Cell.isCellsF, Cell.carF, Cell.cdrF, Cell.isConstantF,
    Cell.symStr, hq, hl, hv]

lemma intChain_ne_null (x : Int) (xs : List Int) : ¬ intChain x xs = Cell.nullv := by
  cases xs <;> simp [intChain, chainCells]

lemma arith_atom (f : Nat) (op : Int → Int → Int) (x : Int) (env : Nat) (st : Heap) :
    proc_arith_implF (f + 1) op (Cell.intv x) env st = some (some x, st) := by
  simp [proc_arith_implF, Cell.isAtomF, Cell.isCellsF, Cell.asInt]

/-- The dual-path reduction on a flat chain of integer literals computes the
right fold of the operation over the chain. -/
lemma arith_chain (op : Int → Int → Int) (env : Nat) (st : Heap) :
    ∀ (xs : List Int) (x : Int) (f : Nat), xs.length + 1 ≤ f →
      proc_arith_implF f op (intChain x xs) env st
        = some (some (foldChain op x xs), st) := by
  intro xs
  induction xs with
  | nil =>
    intro x f hf
    obtain ⟨g, rfl⟩ : ∃ g, f = g + 1 := ⟨f - 1, by omega⟩
    exact arith_atom g op x env st
  | cons y r ih =>
    intro x f hf
    obtain ⟨h, rfl⟩ : ∃ h, f = h + 2 := ⟨f - 2, by simp at hf; omega⟩
    cases r with
    | nil => rfl
    | cons z r2 =>
      have hg : (z :: r2).length + 1 ≤ h + 1 := by simp at hf ⊢; omega
      have step : proc_arith_implF (h + 2) op (intChain x (y :: z :: r2)) env st
          = (match proc_arith_implF (h + 1) op (intChain y (z :: r2)) env st with
             | none => none
             | some (none, st4) => some (none, st4)
             | some (some n2, st4) => some (some (op x n2), st4)) := rfl
      rw [step, ih y (h + 1) hg]
      rfl

/-- `proc_arith_main` on a flat literal chain wraps the fold in a fresh
integer cell. -/
lemma arith_main_chain (op : Int → Int → Int) (env : Nat) (st : Heap)
    (x : Int) (xs : List Int) (f : Nat) (hf : xs.length + 1 ≤ f) :
    proc_arith_mainF (f + 1) op (intChain x xs) env st
      = some (Cell.intv (foldChain op x xs), st) := by
  rw [proc_arith_mainF]
  rw [arith_chain op env st xs x f hf]

lemma foldChain_add (x : Int) (xs : List Int) :
    foldChain (fun a b => a + b) x xs = (x :: xs).sum := by
  induction xs generalizing x with
  | nil => simp [foldChain]
  | cons y r ih => simp [foldChain, ih]

lemma foldChain_mul (x : Int) (xs : List Int) :
    foldChain (fun a b => a * b) x xs = (x :: xs).prod := by
  induction xs generalizing x with
  | nil => simp [foldChain]
  | cons y r ih => simp [foldChain, ih]

/-- Full pipeline for an arithmetic builtin applied to a flat literal chain in
the global environment. -/
lemma eval_arith_top (p : Proc) (op : Int → Int → Int) (s : String)
    (x : Int) (xs : List Int) (f : Nat)
    (hq : ¬ s = "quote") (hl : ¬ s = "lambda")
    (hv : findSymbol stdHeap.length stdHeap 0 s = some (some (Cell.procv p)))
    (hp : ∀ (g : Nat) (t : Cell) (e : Nat) (st : Heap),
      applyProcF (g + 1) p t e st = proc_arith_mainF g op t e st)
    (hf : xs.length + 1 ≤ f) :
    evalF (f + 3) (Cell.cellsv (Cell.symv s) (intChain x xs)) 0 stdHeap
      = some (Cell.intv (foldChain op x xs), stdHeap) := by
  show evalF ((f + 2) + 1) (Cell.cellsv (Cell.symv s) (intChain x xs)) 0 stdHeap = _
  rw [evalF_proc_head (f + 2) s p _ 0 stdHeap hq hl hv]
  show applyProcF ((f + 1) + 1) p _ 0 stdHeap = _
  rw [hp (f + 1)]
  exact arith_main_chain op 0 stdHeap x xs f hf

/-- C1: evaluating `(+ a b)` against the global environment yields the integer
`a + b`, and likewise `-`, `*` and (for `b ≠ 0`) `/` yield `a - b`, `a * b`
and the C truncated quotient of `a` by `b`; and for every flat chain of two or
more integer literals, `(+ x1 ... xn)` yields their left-to-right sum and
`(* x1 ... xn)` their left-to-right product. -/
theorem C1_arithmetic (a b x : Int) (xs : List Int)
    (hb : ¬ b = 0) (hxs : 1 ≤ xs.length) :
    (evalF 6 (Cell.cellsv (Cell.symv "+") (intChain a [b])) 0 stdHeap
        = some (Cell.intv (a + b), stdHeap))
    ∧ (evalF 6 (Cell.cellsv (Cell.symv "-") (intChain a [b])) 0 stdHeap
        = some (Cell.intv (a - b), stdHeap))
    ∧ (evalF 6 (Cell.cellsv (Cell.symv "*") (intChain a [b])) 0 stdHeap
        = some (Cell.intv (a * b), stdHeap))
    ∧ (evalF 6 (Cell.cellsv (Cell.symv "/") (intChain a [b])) 0 stdHeap
        = some (Cell.intv (Int.tdiv a b), stdHeap))
    ∧ (evalF (xs.length + 4) (Cell.cellsv (Cell.symv "+") (intChain x xs)) 0 stdHeap
        = some (Cell.intv ((x :: xs).sum), stdHeap))
    ∧ (evalF (xs.length + 4) (Cell.cellsv (Cell.symv "*") (intChain x xs)) 0 stdHeap
        = some (Cell.intv ((x :: xs).prod), stdHeap)) := by
  refine ⟨?_, ?_, ?_, ?_, ?_, ?_⟩
  · show evalF (3 + 3) _ 0 stdHeap = _
    exact eval_arith_top Proc.padd (fun a b => a + b) "+" a [b] 3
      (by decide) (by decide) rfl (fun g t e st => rfl) (by simp)
  · show evalF (3 + 3) _ 0 stdHeap = _
    exact eval_arith_top Proc.psub (fun a b => a - b) "-" a [b] 3
      (by decide) (by decide) rfl (fun g t e st => rfl) (by simp)
  · show evalF (3 + 3) _ 0 stdHeap = _
    exact eval_arith_top Proc.pmul (fun a b => a * b) "*" a [b] 3
      (by decide) (by decide) rfl (fun g t e st => rfl) (by simp)
  · show evalF (3 + 3) _ 0 stdHeap = _
    exact eval_arith_top Proc.pdiv (fun a b => Int.tdiv a b) "/" a [b] 3
      (by decide) (by decide) rfl (fun g t e st => rfl) (by simp)
  · rw [← foldChain_add x xs]
    show evalF ((xs.length + 1) + 3) _ 0 stdHeap = _
    exact eval_arith_top Proc.padd (fun a b => a + b) "+" x xs (xs.length + 1)
      (by decide) (by decide) rfl (fun g t e st => rfl) (by omega)
  · rw [← foldChain_mul x xs]
    show evalF ((xs.length + 1) + 3) _ 0 stdHeap = _
    exact eval_arith_top Proc.pmul (fun a b => a * b) "*" x xs (xs.length + 1)
      (by decide) (by decide) rfl (fun g t e st => rfl) (by omega)

/-- Witness for C1 at `a = 7`, `b = 2`, chain `1 2 3`. -/
theorem C1_arithmetic_witness :
    (¬ (2 : Int) = 0) ∧ 1 ≤ [(2 : Int), 3].length ∧
    (evalF 6 (Cell.cellsv (Cell.symv "+") (intChain 7 [2])) 0 stdHeap
        = some (Cell.intv (7 + 2), stdHeap))
    ∧ (evalF 6 (Cell.cellsv (Cell.symv "-") (intChain 7 [2])) 0 stdHeap
        = some (Cell.intv (7 - 2), stdHeap))
    ∧ (evalF 6 (Cell.cellsv (Cell.symv "*") (intChain 7 [2])) 0 stdHeap
        = some (Cell.intv (7 * 2), stdHeap))
    ∧ (evalF 6 (Cell.cellsv (Cell.symv "/") (intChain 7 [2])) 0 stdHeap
        = some (Cell.intv (Int.tdiv 7 2), stdHeap))
    ∧ (evalF ([(2 : Int), 3].length + 4)
          (Cell.cellsv (Cell.symv "+") (intChain 1 [2, 3])) 0 stdHeap
        = some (Cell.intv (((1 : Int) :: [2, 3]).sum), stdHeap))
    ∧ (evalF ([(2 : Int), 3].length + 4)
          (Cell.cellsv (Cell.symv "*") (intChain 1 [2, 3])) 0 stdHeap
        = some (Cell.intv (((1 : Int) :: [2, 3]).prod), stdHeap)) :=
  ⟨by decide, by decide,
    C1_arithmetic 7 2 1 [2, 3] (by decide) (by decide)⟩

/-! ### Comparison chains (C2) -/

lemma compare_atom (f : Nat) (op : Int → Int → Bool) (x : Int) (env : Nat)
    (st : Heap) :
    proc_compare_implF (f + 1) op (Cell.intv x) env st = some (some x, st) := rfl

/-- The comparison reduction on a flat literal chain returns `true` (with the
head operand in the by-reference slot) exactly when every adjacent pair
satisfies the relation. -/
lemma compare_chain (op : Int → Int → Bool) (env : Nat) (st : Heap) :
    ∀ (xs : List Int) (x : Int) (f : Nat), xs.length + 1 ≤ f →
      proc_compare_implF f op (intChain x xs) env st
        = some (if adjChain op x xs then some x else none, st) := by
  intro xs
  induction xs with
  | nil =>
    intro x f hf
    obtain ⟨g, rfl⟩ : ∃ g, f = g + 1 := ⟨f - 1, by omega⟩
    simp [adjChain]
    exact compare_atom g op x env st
  | cons y r ih =>
    intro x f hf
    obtain ⟨h, rfl⟩ : ∃ h, f = h + 2 := ⟨f - 2, by simp at hf; omega⟩
    cases r with
    | nil =>
      have step : proc_compare_implF (h + 2) op (intChain x [y]) env st
          = some (if op x y then some x else none, st) := rfl
      rw [step]
      cases h2 : op x y <;> simp [adjChain, h2]
    | cons z r2 =>
      have hg : (z :: r2).length + 1 ≤ h + 1 := by simp at hf ⊢; omega
      have step : proc_compare_implF (h + 2) op (intChain x (y :: z :: r2)) env st
          = (match proc_compare_implF (h + 1) op (intChain y (z :: r2)) env st with
             | none => none
             | some (none, st4) => some (none, st4)
             | some (some n2, st4) =>
               some (if op x n2 then some x else none, st4)) := rfl
      rw [step, ih y (h + 1) hg]
      have hx : adjChain op x (y :: z :: r2) = (op x y && adjChain op y (z :: r2)) := rfl
      cases ha : adjChain op y (z :: r2) with
      | false => rw [hx, ha]; simp
      | true => rw [hx, ha]; cases h2 : op x y <;> simp [h2]

lemma compare_main_chain (op : Int → Int → Bool) (env : Nat) (st : Heap)
    (x : Int) (xs : List Int) (f : Nat) (hf : xs.length + 1 ≤ f) :
    proc_compare_mainF (f + 1) op (intChain x xs) env st
      = some (if adjChain op x xs then Cell.sTrue else Cell.sFalse, st) := by
  rw [proc_compare_mainF, compare_chain op env st xs x f hf]
  cases adjChain op x xs <;> simp

/-- Full pipeline for a comparison builtin applied to a flat literal chain in
the global environment. -/
lemma eval_compare_top (p : Proc) (op : Int → Int → Bool) (s : String)
    (x : Int) (xs : List Int) (f : Nat)
    (hq : ¬ s = "quote") (hl : ¬ s = "lambda")
    (hv : findSymbol stdHeap.length stdHeap 0 s = some (some (Cell.procv p)))
    (hp : ∀ (g : Nat) (t : Cell) (e : Nat) (st : Heap),
      applyProcF (g + 1) p t e st = proc_compare_mainF g op t e st)
    (hf : xs.length + 1 ≤ f) :
    evalF (f + 3) (Cell.cellsv (Cell.symv s) (intChain x xs)) 0 stdHeap
      = some (if adjChain op x xs then Cell.sTrue else Cell.sFalse, stdHeap) := by
  show evalF ((f + 2) + 1) (Cell.cellsv (Cell.symv s) (intChain x xs)) 0 stdHeap = _
  rw [evalF_proc_head (f + 2) s p _ 0 stdHeap hq hl hv]
  show applyProcF ((f + 1) + 1) p _ 0 stdHeap = _
  rw [hp (f + 1)]
  exact compare_main_chain op 0 stdHeap x xs f hf

/-- The comparison builtins with their registered names and relation. -/
def cmpTable : List (String × Proc × (Int → Int → Bool)) :=
  [ (">", Proc.pgt, fun a b => decide (a > b)),
    ("<", Proc.plt, fun a b => decide (a < b)),
    ("<=", Proc.ple, fun a b => decide (a ≤ b)),
    (">=", Proc.pge, fun a b => decide (a ≥ b)),
    ("eq", Proc.peq, fun a b => decide (a = b)),
    ("ne", Proc.pne, fun a b => decide (¬ a = b)) ]

/-- C2: each comparison builtin applied to a flat chain of two or more integer
literals yields the `#t` sentinel exactly when every adjacent operand pair
satisfies the relation and the `#f` sentinel otherwise; in particular
`(< 1 2 3)` yields `#t` and `(< 1 3 2)` yields `#f`. -/
theorem C2_comparison_chains (s : String) (p : Proc) (R : Int → Int → Bool)
    (x : Int) (xs : List Int)
    (hmem : (s, p, R) ∈ cmpTable) (hxs : 1 ≤ xs.length) :
    (evalF (xs.length + 4) (Cell.cellsv (Cell.symv s) (intChain x xs)) 0 stdHeap
        = some (if adjChain R x xs then Cell.sTrue else Cell.sFalse, stdHeap))
    ∧ (evalF 6 (Cell.cellsv (Cell.symv "<") (intChain 1 [2, 3])) 0 stdHeap
        = some (Cell.sTrue, stdHeap))
    ∧ (evalF 6 (Cell.cellsv (Cell.symv "<") (intChain 1 [3, 2])) 0 stdHeap
        = some (Cell.sFalse, stdHeap)) := by
  refine ⟨?_, rfl, rfl⟩
  fin_cases hmem <;>
    exact eval_compare_top _ _ _ x xs (xs.length + 1)
      (by decide) (by decide) rfl (fun g t e st => rfl) (by omega)

/-- Witness for C2 at `(<= 1 1 2)`. -/
theorem C2_comparison_chains_witness :
    (("<=", Proc.ple, fun a b => decide (a ≤ b)) ∈ cmpTable ∧
      1 ≤ [(1 : Int), 2].length) ∧
    ((evalF ([(1 : Int), 2].length + 4)
        (Cell.cellsv (Cell.symv "<=") (intChain 1 [1, 2])) 0 stdHeap
        = some (if adjChain (fun a b => decide (a ≤ b)) 1 [1, 2]
                then Cell.sTrue else Cell.sFalse, stdHeap))
    ∧ (evalF 6 (Cell.cellsv (Cell.symv "<") (intChain 1 [2, 3])) 0 stdHeap
        = some (Cell.sTrue, stdHeap))
    ∧ (evalF 6 (Cell.cellsv (Cell.symv "<") (intChain 1 [3, 2])) 0 stdHeap
        = some (Cell.sFalse, stdHeap))) :=
  ⟨⟨by simp [cmpTable], by decide⟩,
    C2_comparison_chains "<=" Proc.ple (fun a b => decide (a ≤ b)) 1 [1, 2]
      (by simp [cmpTable]) (by decide)⟩

/-! ### `setq` on an unbound name (C4) -/

/-- `s` has no binding in the environment `e` nor in any environment reachable
through `outer` (fuel bounds the chain walk, as in `updateSymbol`). -/
def unboundAll : Nat → Heap → Nat → String → Bool
  | 0, _, _, _ => false
  | fuel + 1, st, e, s =>
    match st[e]? with
    | none => false
    | some env =>
      (lookupTable env.table s).isNone &&
      (match env.outer with
       | none => true
       | some o => unboundAll fuel st o s)

/-- `UpdateSymbol` with assignment semantics fails, leaving the heap
untouched, whenever the name is unbound along the whole chain. -/
lemma updateSymbol_unbound : ∀ (f : Nat) (st : Heap) (e : Nat) (s : String)
    (v : Cell), unboundAll f st e s = true →
    updateSymbol f st e s v false = some (false, st) := by
  intro f
  induction f with
  | zero => intro st e s v h; simp [unboundAll] at h
  | succ g ih =>
    intro st e s v h
    rw [unboundAll] at h
    rw [updateSymbol]
    cases hge : st[e]? with
    | none => rw [hge] at h; simp at h
    | some env =>
      rw [hge] at h
      simp only [Bool.and_eq_true, Option.isNone_iff_eq_none] at h
      obtain ⟨h1, h2⟩ := h
      simp only [h1]
      cases ho : env.outer with
      | none => simp [ho]
      | some o =>
        rw [ho] at h2
        simp only [ho]
        exact ih st o s v h2

/-- C4: evaluating `(setq y 5)` in any environment chain in which `y` is bound
nowhere (and `setq` resolves to its builtin) returns the nil sentinel and
leaves the whole heap of environments unchanged: assignment delegates outward
and fails at the root instead of creating a binding.  (The console diagnostic
is output-only and is not modelled.) -/
theorem C4_setq_unbound (f : Nat) (st : Heap) (e : Nat)
    (hsetq : findSymbol st.length st e "setq"
      = some (some (Cell.procv Proc.psetq)))
    (hun : unboundAll st.length st e "y" = true) :
    evalF (f + 4)
      (Cell.cellsv (Cell.symv "setq") (Cell.cellsv (Cell.symv "y") (Cell.intv 5)))
      e st = some (Cell.sNil, st) := by
  show evalF ((f + 3) + 1) _ e st = _
  rw [evalF_proc_head (f + 3) "setq" Proc.psetq _ e st (by decide) (by decide) hsetq]
  have ha : applyProcF (f + 3) Proc.psetq
      (Cell.cellsv (Cell.symv "y") (Cell.intv 5)) e st
      = eval_setF (f + 2) (Cell.cellsv (Cell.symv "y") (Cell.intv 5)) e st false := rfl
  rw [ha]
  have step : eval_setF (f + 2) (Cell.cellsv (Cell.symv "y") (Cell.intv 5)) e st false
      = (match updateSymbol st.length st e "y" (Cell.intv 5) false with
         | none => none
         | some (true, st2) => some (Cell.intv 5, st2)
         | some (false, st2) => some (Cell.sNil, st2)) := rfl
  rw [step, updateSymbol_unbound st.length st e "y" (Cell.intv 5) hun]

/-- Witness for C4 at the freshly bootstrapped global environment. -/
theorem C4_setq_unbound_witness :
    (findSymbol stdHeap.length stdHeap 0 "setq"
        = some (some (Cell.procv Proc.psetq))
      ∧ unboundAll stdHeap.length stdHeap 0 "y" = true) ∧
    evalF 4
      (Cell.cellsv (Cell.symv "setq") (Cell.cellsv (Cell.symv "y") (Cell.intv 5)))
      0 stdHeap = some (Cell.sNil, stdHeap) :=
  ⟨⟨rfl, rfl⟩, C4_setq_unbound 0 stdHeap 0 rfl rfl⟩

/-! ### `if` (C5) -/

/-- C5: for `(if cond then else)` (with `if` resolving to its builtin), the
condition is evaluated first; a result not identical to the `#f` sentinel
selects the then-expression, the `#f` sentinel itself selects the
else-expression, and only the selected branch is evaluated; a tail with fewer
than two operands yields the error sentinel.  Identity, not structural
equality: a quoted `#f` symbol (a distinct cell from the sentinel) selects the
then-branch, while the sentinel obtained by evaluating `#f` selects the
else-branch. -/
theorem C5_if_semantics (f : Nat) (c t e : Cell) (envId : Nat) (st : Heap)
    (tl : Cell)
    (hif : findSymbol st.length st envId "if" = some (some (Cell.procv Proc.pif)))
    (hc : ¬ c = Cell.nullv) (hbad : hasTwoOperandsF tl = false) :
    (evalF (f + 3)
        (Cell.cellsv (Cell.symv "if") (Cell.cellsv c (Cell.cellsv t e))) envId st
      = (match evalF f c envId st with
         | none => none
         | some (v, st1) =>
           if ¬ v = Cell.sFalse then evalF f t envId st1
           else evalF f e envId st1))
    ∧ (evalF (f + 3) (Cell.cellsv (Cell.symv "if") tl) envId st
        = some (Cell.sBad, st))
    ∧ (evalF 9 (Cell.cellsv (Cell.symv "if")
          (Cell.cellsv (Cell.cellsv (Cell.symv "quote") (Cell.symv "#f"))
            (Cell.cellsv (Cell.intv 1) (Cell.intv 2)))) 0 stdHeap
        = some (Cell.intv 1, stdHeap))
    ∧ (evalF 9 (Cell.cellsv (Cell.symv "if")
          (Cell.cellsv (Cell.symv "#f")
            (Cell.cellsv (Cell.intv 1) (Cell.intv 2)))) 0 stdHeap
        = some (Cell.intv 2, stdHeap)) := by
  refine ⟨?_, ?_, rfl, rfl⟩
  · show evalF ((f + 2) + 1) _ envId st = _
    rw [evalF_proc_head (f + 2) "if" Proc.pif _ envId st
      (by decide) (by decide) hif]
    have ha : applyProcF (f + 2) Proc.pif (Cell.cellsv c (Cell.cellsv t e)) envId st
        = eval_ifF (f + 1) (Cell.cellsv c (Cell.cellsv t e)) envId st := rfl
    rw [ha, eval_ifF,
      if_neg (by simp [hasTwoOperandsF, Cell.carF, Cell.cdrF, hc])]
    simp only [Cell.carF, Cell.cdrF]
  · show evalF ((f + 2) + 1) _ envId st = _
    rw [evalF_proc_head (f + 2) "if" Proc.pif _ envId st
      (by decide) (by decide) hif]
    have ha : applyProcF (f + 2) Proc.pif tl envId st
        = eval_ifF (f + 1) tl envId st := rfl
    rw [ha, eval_ifF, if_pos hbad]

/-- Witness for C5 at `cond = 0`, `then = 1`, `else = 2`, malformed tail
`(if)` (null tail). -/
theorem C5_if_semantics_witness :
    (findSymbol stdHeap.length stdHeap 0 "if"
        = some (some (Cell.procv Proc.pif))
      ∧ ¬ Cell.intv 0 = Cell.nullv
      ∧ hasTwoOperandsF Cell.nullv = false) ∧
    ((evalF 4 (Cell.cellsv (Cell.symv "if")
        (Cell.cellsv (Cell.intv 0) (Cell.cellsv (Cell.intv 1) (Cell.intv 2))))
        0 stdHeap
      = (match evalF 1 (Cell.intv 0) 0 stdHeap with
         | none => none
         | some (v, st1) =>
           if ¬ v = Cell.sFalse then evalF 1 (Cell.intv 1) 0 st1
           else evalF 1 (Cell.intv 2) 0 st1))
    ∧ (evalF 4 (Cell.cellsv (Cell.symv "if") Cell.nullv) 0 stdHeap
        = some (Cell.sBad, stdHeap))
    ∧ (evalF 9 (Cell.cellsv (Cell.symv "if")
          (Cell.cellsv (Cell.cellsv (Cell.symv "quote") (Cell.symv "#f"))
            (Cell.cellsv (Cell.intv 1) (Cell.intv 2)))) 0 stdHeap
        = some (Cell.intv 1, stdHeap))
    ∧ (evalF 9 (Cell.cellsv (Cell.symv "if")
          (Cell.cellsv (Cell.symv "#f")
            (Cell.cellsv (Cell.intv 1) (Cell.intv 2)))) 0 stdHeap
        = some (Cell.intv 2, stdHeap))) :=
  ⟨⟨rfl, by decide, rfl⟩,
    C5_if_semantics 1 (Cell.intv 0) (Cell.intv 1) (Cell.intv 2) 0 stdHeap
      Cell.nullv rfl (by decide) rfl⟩

/-! ### `quote` (C6)

The reader turns the text `(quote (1 2 3))` into
`cellsv (symv "quote") (cellsv (intv 1) (cellsv (intv 2) (intv 3)))`: the
quoted object sits directly in the tail slot, and the three-element list is
the chain whose last element fills the final tail slot.  The concrete
examples below use exactly these reader shapes. -/

/-- C6: `quote` returns its tail pointer unevaluated and verbatim — the
identical subtree, with no symbol resolution, environment access or heap
effect; in particular `(quote (1 2 3))` yields the literal reader tree of
`(1 2 3)`, `(car (quote (1 2 3)))` yields the integer `1`, and
`(cdr (quote (1 2 3)))` yields the reader tree of `(2 3)`. -/
theorem C6_quote_verbatim (tail : Cell) (envId : Nat) (st : Heap) (f : Nat) :
    (evalF (f + 1) (Cell.cellsv (Cell.symv "quote") tail) envId st
      = some (tail, st))
    ∧ (evalF 4 (Cell.cellsv (Cell.symv "quote")
          (Cell.cellsv (Cell.intv 1) (Cell.cellsv (Cell.intv 2) (Cell.intv 3))))
          0 stdHeap
        = some (Cell.cellsv (Cell.intv 1)
            (Cell.cellsv (Cell.intv 2) (Cell.intv 3)), stdHeap))
    ∧ (evalF 6 (Cell.cellsv (Cell.symv "car")
          (Cell.cellsv (Cell.symv "quote")
            (Cell.cellsv (Cell.intv 1) (Cell.cellsv (Cell.intv 2) (Cell.intv 3)))))
          0 stdHeap
        = some (Cell.intv 1, stdHeap))
    ∧ (evalF 6 (Cell.cellsv (Cell.symv "cdr")
          (Cell.cellsv (Cell.symv "quote")
            (Cell.cellsv (Cell.intv 1) (Cell.cellsv (Cell.intv 2) (Cell.intv 3)))))
          0 stdHeap
        = some (Cell.cellsv (Cell.intv 2) (Cell.intv 3), stdHeap)) :=
  ⟨rfl, rfl, rfl, rfl⟩

/-! ### Malformed call heads (C7)

`eval` only short-circuits on a head that is the null pointer, the `#nil`
sentinel, the `#error` sentinel, or a constant.  The `#t` and `#f` sentinels
are `std::string` cells, so a pair headed by one of them takes the symbol
path: the lookup finds the sentinel itself in the global table, it is neither
a closure nor a native procedure, and `eval_proc` returns the null pointer —
not the error sentinel. -/

/-- C7 counterexample: a pair whose head is the `#f` (or `#t`) sentinel
evaluates to the null pointer in the bootstrapped global environment, not to
the error sentinel, refuting the claim for two of the four sentinels. -/
theorem C7_sentinel_head_counterexample :
    evalF 5 (Cell.cellsv Cell.sFalse (Cell.intv 1)) 0 stdHeap
        = some (Cell.nullv, stdHeap)
    ∧ evalF 5 (Cell.cellsv Cell.sTrue (Cell.intv 1)) 0 stdHeap
        = some (Cell.nullv, stdHeap)
    ∧ ¬ evalF 5 (Cell.cellsv Cell.sFalse (Cell.intv 1)) 0 stdHeap
        = some (Cell.sBad, stdHeap) :=
  ⟨rfl, rfl, by decide⟩

/-- C7 amended: a pair whose head is absent, or the `#nil` or error sentinel,
or a self-evaluating constant (Integer, Float, StringLiteral) evaluates to the
error sentinel, in any environment and heap (the `#t`/`#f` sentinels instead
take the symbol path and are excluded). -/
theorem C7_malformed_head (f : Nat) (tail : Cell) (envId : Nat) (st : Heap)
    (n : Int) (s : String) :
    (evalF (f + 1) (Cell.cellsv Cell.nullv tail) envId st = some (Cell.sBad, st))
    ∧ (evalF (f + 1) (Cell.cellsv Cell.sNil tail) envId st = some (Cell.sBad, st))
    ∧ (evalF (f + 1) (Cell.cellsv Cell.sBad tail) envId st = some (Cell.sBad, st))
    ∧ (evalF (f + 1) (Cell.cellsv (Cell.intv n) tail) envId st
        = some (Cell.sBad, st))
    ∧ (evalF (f + 1) (Cell.cellsv Cell.fltv tail) envId st = some (Cell.sBad, st))
    ∧ (evalF (f + 1) (Cell.cellsv (Cell.strv s) tail) envId st
        = some (Cell.sBad, st)) :=
  ⟨rfl, rfl, rfl, rfl, rfl, rfl⟩

/-! ### Closure capture (C3)

The reader trees of the four inputs: `(define x 1)` is
`cellsv (symv "define") (cellsv (symv "x") (intv 1))` (the value in the tail
slot); `(lambda () x)` is `cellsv (symv "lambda") (cellsv nullv (symv "x"))`
(empty parameter list = null pointer, body in the tail slot); and `(f)` —
a one-element list — collapses to the bare symbol `f`, because
`makeLispTree` returns the single object alone when the rest of the tree is
empty. -/

def c3_define_x1 : Cell :=
  Cell.cellsv (Cell.symv "define") (Cell.cellsv (Cell.symv "x") (Cell.intv 1))

def c3_lambda : Cell :=
  Cell.cellsv (Cell.symv "lambda") (Cell.cellsv Cell.nullv (Cell.symv "x"))

def c3_define_f : Cell :=
  Cell.cellsv (Cell.symv "define") (Cell.cellsv (Cell.symv "f") c3_lambda)

def c3_define_x2 : Cell :=
  Cell.cellsv (Cell.symv "define") (Cell.cellsv (Cell.symv "x") (Cell.intv 2))

/-- Evaluate, in sequence against one global environment, `(define x 1)`,
`(define f (lambda () x))`, `(define x 2)`, and then the given final
expression, returning the final value. -/
def c3_run (final : Cell) : Option Cell :=
  match evalF 32 c3_define_x1 0 stdHeap with
  | none => none
  | some (_, s1) =>
    match evalF 32 c3_define_f 0 s1 with
    | none => none
    | some (_, s2) =>
      match evalF 32 c3_define_x2 0 s2 with
      | none => none
      | some (_, s3) =>
        match evalF 32 final 0 s3 with
        | none => none
        | some (v, _) => some v

/-- C3 counterexample: after the three defines, evaluating `(f)` does not
return `1`.  The reader tree of `(f)` is the bare symbol `f`, which evaluates
to the closure itself without invoking it; and even the explicit call form
`cellsv (symv "f") nullv` returns `2`, because the closure's captured global
environment observes the later in-place rebinding of `x`. -/
theorem C3_closure_counterexample :
    (¬ c3_run (Cell.symv "f") = some (Cell.intv 1))
    ∧ (¬ c3_run (Cell.cellsv (Cell.symv "f") Cell.nullv) = some (Cell.intv 1)) :=
  ⟨by decide, by decide⟩

/-- C3 amended: closures capture their defining environment by reference, and
captured-environment lookups observe later mutation of the captured binding —
so after `(define x 1)`, `(define f (lambda () x))`, `(define x 2)`, invoking
the closure (the call form of `(f)`) returns `2`, not `1`; the reader tree of
the one-element list `(f)` is the bare symbol `f`, whose evaluation returns
the closure value itself without invoking it. -/
theorem C3_closure_capture :
    (c3_run (Cell.cellsv (Cell.symv "f") Cell.nullv) = some (Cell.intv 2))
    ∧ (c3_run (Cell.symv "f")
        = some (Cell.lamv Cell.nullv (Cell.symv "x") 0)) :=
  ⟨rfl, rfl⟩

/-! ### The tree builder (`makeLispObject` / `makeLispTree`)

The shared `Tokens::iterator` cursor is modelled as the remaining token
suffix; `*++token_stream` becomes "drop the current token, then read the head
of what remains", and dereferencing the end iterator — undefined behaviour —
is the stuck result `none`.  `makeLispObject` alone checks for the end of
input; `makeLispTree` increments and dereferences unchecked. -/

/-- `token[0]`; indexing an empty `std::string` at position 0 yields the NUL
terminator, which is what the classification branches then see. -/
def firstChar (s : String) : Char := s.data.headD (Char.ofNat 0)

/-- C locale `isdigit` on ASCII. -/
def isDigitC (c : Char) : Bool := 48 ≤ c.toNat ∧ c.toNat ≤ 57

/-- ASCII lowercasing as `boost::to_lower` does in the C locale (bytes above
`Z` and non-letters are untouched). -/
def toLowerC (s : String) : String :=
  ⟨s.data.map fun c =>
    if 65 ≤ c.toNat ∧ c.toNat ≤ 90 then Char.ofNat (c.toNat + 32) else c⟩

/-- Accumulate the longest prefix of digits valid in the given base, as
`strtoll` does. -/
def takeDigits (base : Nat) (valid : Char → Bool) (toVal : Char → Nat) :
    List Char → Int → Int
  | [], acc => acc
  | c :: cs, acc =>
    if valid c then takeDigits base valid toVal cs (acc * base + toVal c) else acc

/-- C `isxdigit` on ASCII. -/
def isHexDigitC (c : Char) : Bool :=
  isDigitC c || (97 ≤ c.toNat ∧ c.toNat ≤ 102) || (65 ≤ c.toNat ∧ c.toNat ≤ 70)

/-- `strtoll(&token[0], 0, 0)` on a token whose first character is a digit:
base auto-detection (`0x`/`0X` prefix = hexadecimal, leading `0` = octal,
otherwise decimal), longest valid digit prefix.  Overflow clamping is not
modelled (the unbounded-`Int` convention of this embedding). -/
def strtollC (s : String) : Int :=
  match s.data with
  | '0' :: x :: c :: rest =>
    if (x = 'x' ∨ x = 'X') ∧ isHexDigitC c = true then
      takeDigits 16 isHexDigitC (fun c => c.toNat -
        (if isDigitC c then 48 else if 97 ≤ c.toNat then 87 else 55)) (c :: rest) 0
    else
      takeDigits 8 (fun c => 48 ≤ c.toNat ∧ c.toNat ≤ 55) (fun c => c.toNat - 48)
        ('0' :: x :: c :: rest) 0
  | '0' :: rest =>
    takeDigits 8 (fun c => 48 ≤ c.toNat ∧ c.toNat ≤ 55) (fun c => c.toNat - 48)
      ('0' :: rest) 0
  | cs => takeDigits 10 isDigitC (fun c => c.toNat - 48) cs 0

mutual

/-- `makeLispObject`: classify the current token without consuming it; `(`
hands over to the tree rule. -/
def makeLispObjectF : Nat → List String → Option (Cell × List String)
  | 0, _ => none
  | fuel + 1, ts =>
    match ts with
    | [] => some (Cell.nullv, [])
    | tok :: _ =>
      if isDigitC (firstChar tok) then some (Cell.intv (strtollC tok), ts)
      else if firstChar tok = '"' then some (Cell.strv tok, ts)
      else if ¬ firstChar tok = '(' then some (Cell.symv (toLowerC tok), ts)
      else makeLispTreeF fuel ts
termination_by structural f _ => f

/-- `makeLispTree`: advance the cursor, dereference it (unchecked — `none`
models running past the end), stop on `)`, otherwise cons the next object
onto the rest of the tree; an empty rest collapses to the object alone. -/
def makeLispTreeF : Nat → List String → Option (Cell × List String)
  | 0, _ => none
  | fuel + 1, ts =>
    match ts with
    | [] => none
    | _ :: rest =>
      match rest with
      | [] => none
      | tok :: _ =>
        if firstChar tok = ')' then some (Cell.nullv, rest)
        else
          match makeLispObjectF fuel rest with
          | none => none
          | some (car, ts1) =>
            match makeLispTreeF fuel ts1 with
            | none => none
            | some (cdr, ts2) =>
              if cdr = Cell.nullv then some (car, ts2)
              else some (Cell.cellsv car cdr, ts2)
termination_by structural f _ => f

end

/-- The cell a non-parenthesis token turns into. -/
def objOf (tok : String) : Cell :=
  if isDigitC (firstChar tok) then Cell.intv (strtollC tok)
  else if firstChar tok = '"' then Cell.strv tok
  else Cell.symv (toLowerC tok)

/-- The tree the builder makes of a flat run of non-parenthesis tokens: a
right-nested chain with the last object directly in the final tail slot. -/
def chainTok : List String → Cell
  | [] => Cell.nullv
  | t :: r => chainCells (objOf t) (r.map objOf)

lemma objOf_ne_null (t : String) : ¬ objOf t = Cell.nullv := by
  unfold objOf; split_ifs <;> simp

lemma chainTok_cons_ne_null (t : String) (r : List String) :
    ¬ chainTok (t :: r) = Cell.nullv := by
  cases r with
  | nil => exact objOf_ne_null t
  | cons x r2 => simp [chainTok, chainCells]

/-- A token that does not open a parenthesis is classified in place, without
moving the cursor. -/
lemma object_simple (g : Nat) (t : String) (rest : List String)
    (h : ¬ firstChar t = '(') :
    makeLispObjectF (g + 1) (t :: rest) = some (objOf t, t :: rest) := by
  rw [makeLispObjectF]
  unfold objOf
  split_ifs with h1 h2 <;> first | rfl | exact absurd rfl h | simp_all

/-- The tree rule on a flat run of non-parenthesis tokens closed by `)`:
it builds the chain and leaves the cursor on the `)`. -/
lemma tree_simple : ∀ (ts : List String) (cur : String) (post : List String)
    (f : Nat),
    (∀ t ∈ ts, ¬ firstChar t = '(' ∧ ¬ firstChar t = ')') →
    2 * ts.length + 2 ≤ f →
    makeLispTreeF f (cur :: (ts ++ ")" :: post))
      = some (chainTok ts, ")" :: post) := by
  intro ts
  induction ts with
  | nil =>
    intro cur post f _ hf
    obtain ⟨g, rfl⟩ : ∃ g, f = g + 1 := ⟨f - 1, by omega⟩
    rfl
  | cons t r ih =>
    intro cur post f h hf
    obtain ⟨g, rfl⟩ : ∃ g, f = g + 2 := ⟨f - 2, by simp at hf; omega⟩
    have ht := h t (by simp)
    simp only [List.cons_append]
    have step : makeLispTreeF (g + 2) (cur :: t :: (r ++ ")" :: post))
        = (if firstChar t = ')' then some (Cell.nullv, t :: (r ++ ")" :: post))
           else
             match makeLispObjectF (g + 1) (t :: (r ++ ")" :: post)) with
             | none => none
             | some (car, ts1) =>
               match makeLispTreeF (g + 1) ts1 with
               | none => none
               | some (cdr, ts2) =>
                 if cdr = Cell.nullv then some (car, ts2)
                 else some (Cell.cellsv car cdr, ts2)) := rfl
    rw [step, if_neg ht.2, object_simple g t _ ht.1]
    have ihr : makeLispTreeF (g + 1) (t :: (r ++ ")" :: post))
        = some (chainTok r, ")" :: post) :=
      ih t post (g + 1) (fun u hu => h u (by simp [hu])) (by simp at hf ⊢; omega)
    simp only [ihr]
    cases r with
    | nil => rfl
    | cons x r2 => rw [if_neg (chainTok_cons_ne_null x r2)]; rfl

/-- C8 counterexample: building the tree for the token sequence
`( 1 2 3 )` yields `cons(1, cons(2, 3))` — the final tail slot holds the
integer `3`, not an absent/nil tail — and in particular it differs from the
nil-terminated proper list of 1, 2, 3 claimed by the specification. -/
theorem C8_last_element_in_tail_counterexample :
    makeLispObjectF 20 ["(", "1", "2", "3", ")"]
      = some (Cell.cellsv (Cell.intv 1)
          (Cell.cellsv (Cell.intv 2) (Cell.intv 3)), [")"])
    ∧ ¬ makeLispObjectF 20 ["(", "1", "2", "3", ")"]
      = some (Cell.cellsv (Cell.intv 1) (Cell.cellsv (Cell.intv 2)
          (Cell.cellsv (Cell.intv 3) Cell.nullv)), [")"]) :=
  ⟨rfl, by decide⟩

/-! ### Balanced input never runs the tree rule past the end (C10)

The only `none` sources in the parser model are fuel exhaustion and the
unchecked dereference after the increment in `makeLispTreeF`; with the fuel
below neither occurs, so `isSome` expresses exactly that the dereference is
unreachable and the parse total. -/

/-- The token classifications `repl`'s balance check uses: first character
`(` or `)`. -/
def isOpenTok (t : String) : Bool := decide (firstChar t = '(')

def isCloseTok (t : String) : Bool := decide (firstChar t = ')')

/-- Closing-parenthesis excess of a token suffix. -/
def cnt : List String → Int
  | [] => 0
  | t :: r =>
    (if isCloseTok t then 1 else 0) - (if isOpenTok t then 1 else 0) + cnt r

lemma cnt_append (a b : List String) : cnt (a ++ b) = cnt a + cnt b := by
  induction a with
  | nil => simp [cnt]
  | cons t r ih => simp [cnt, ih]; ring

lemma close_not_open (t : String) (h : isCloseTok t = true) :
    isOpenTok t = false := by
  simp [isCloseTok] at h
  simp [isOpenTok, h]

lemma cnt_eq_countP (ts : List String) :
    cnt ts = (ts.countP isCloseTok : Int) - (ts.countP isOpenTok : Int) := by
  induction ts with
  | nil => simp [cnt]
  | cons t r ih =>
    rw [cnt, ih, List.countP_cons, List.countP_cons]
    cases ho : isOpenTok t <;> cases hc : isCloseTok t <;> push_cast <;> ring

/-- Invariant: whenever the tree rule starts with at least one unmatched `)`
ahead of the cursor, it terminates without running past the end, stopping on
the first `)` whose prefix is parenthesis-balanced. -/
lemma tree_balanced : ∀ (n : Nat) (rest : List String) (cur : String) (f : Nat),
    rest.length ≤ n → 1 ≤ cnt rest → 2 * rest.length + 2 ≤ f →
    ∃ c body rp after,
      makeLispTreeF f (cur :: rest) = some (c, rp :: after) ∧
      rest = body ++ rp :: after ∧ isCloseTok rp = true ∧ cnt body = 0 := by
  intro n
  induction n with
  | zero =>
    intro rest cur f hn hc _
    have : rest = [] := List.length_eq_zero.mp (Nat.le_zero.mp hn)
    subst this
    simp [cnt] at hc
  | succ m ihm =>
    intro rest cur f hn hc hf
    cases rest with
    | nil => simp [cnt] at hc
    | cons t1 r1 =>
      obtain ⟨g', rfl⟩ : ∃ g', f = g' + 2 := ⟨f - 2, by simp at hf; omega⟩
      have step : makeLispTreeF (g' + 2) (cur :: t1 :: r1)
          = (if firstChar t1 = ')' then some (Cell.nullv, t1 :: r1)
             else
               match makeLispObjectF (g' + 1) (t1 :: r1) with
               | none => none
               | some (car, ts1) =>
                 match makeLispTreeF (g' + 1) ts1 with
                 | none => none
                 | some (cdr, ts2) =>
                   if cdr = Cell.nullv then some (car, ts2)
                   else some (Cell.cellsv car cdr, ts2)) := rfl
      by_cases hcl : firstChar t1 = ')'
      · refine ⟨Cell.nullv, [], t1, r1, ?_, rfl, by simp [isCloseTok, hcl],
          by simp [cnt]⟩
        rw [step, if_pos hcl]
      · by_cases hop : firstChar t1 = '('
        · -- `(`: the object rule recurses into an inner tree
          have hcnt1 : cnt (t1 :: r1) = cnt r1 - 1 := by
            simp [cnt, isOpenTok, isCloseTok, hop, hcl]; ring
          have hcr1 : 2 ≤ cnt r1 := by omega
          have hlen1 : r1.length ≤ m := by simp at hn; omega
          obtain ⟨c1, body1, rp1, after1, he1, hsplit1, hclose1, hb1⟩ :=
            ihm r1 t1 g' hlen1 (by omega) (by simp at hf; omega)
          have hobj : makeLispObjectF (g' + 1) (t1 :: r1)
              = some (c1, rp1 :: after1) := by
            have ostep : makeLispObjectF (g' + 1) (t1 :: r1)
                = (if isDigitC (firstChar t1) then
                     some (Cell.intv (strtollC t1), t1 :: r1)
                   else if firstChar t1 = '"' then some (Cell.strv t1, t1 :: r1)
                   else if ¬ firstChar t1 = '(' then
                     some (Cell.symv (toLowerC t1), t1 :: r1)
                   else makeLispTreeF g' (t1 :: r1)) := rfl
            rw [ostep, if_neg (by rw [hop]; decide), if_neg (by rw [hop]; decide),
              if_neg (by rw [hop]; decide)]
            exact he1
          have hcafter1 : cnt r1 = 1 + cnt after1 := by
            rw [hsplit1, cnt_append, hb1, cnt]
            rw [hclose1, close_not_open rp1 hclose1]
            simp
          have hlena1 : after1.length + 1 ≤ r1.length := by
            rw [hsplit1]; simp
          obtain ⟨c2, body2, rp2, after2, he2, hsplit2, hclose2, hb2⟩ :=
            ihm after1 rp1 (g' + 1) (by omega) (by omega)
              (by simp at hf; omega)
          refine ⟨if c2 = Cell.nullv then c1 else Cell.cellsv c1 c2,
            t1 :: (body1 ++ rp1 :: body2), rp2, after2, ?_, ?_, hclose2, ?_⟩
          · rw [step, if_neg hcl]
            simp only [hobj, he2]
            by_cases h2 : c2 = Cell.nullv <;> simp [h2]
          · rw [hsplit1, hsplit2]
            simp
          · rw [cnt, cnt_append, hb1, cnt, hb2]
            rw [hclose1, close_not_open rp1 hclose1]
            simp [isOpenTok, isCloseTok, hop, hcl]
        · -- plain object token: classified in place
          have hcnt1 : cnt (t1 :: r1) = cnt r1 := by
            simp [cnt, isOpenTok, isCloseTok, hop, hcl]
          obtain ⟨c2, body2, rp2, after2, he2, hsplit2, hclose2, hb2⟩ :=
            ihm r1 t1 (g' + 1) (by simp at hn; omega) (by omega)
              (by simp at hf; omega)
          refine ⟨if c2 = Cell.nullv then objOf t1 else Cell.cellsv (objOf t1) c2,
            t1 :: body2, rp2, after2, ?_, ?_, hclose2, ?_⟩
          · rw [step, if_neg hcl, object_simple g' t1 r1 hop]
            simp only [he2]
            by_cases h2 : c2 = Cell.nullv <;> simp [h2]
          · rw [hsplit2]; simp
          · rw [cnt, hb2]
            simp [isOpenTok, isCloseTok, hop, hcl]

/-- C10: for every token sequence whose count of `(`-tokens equals its count
of `)`-tokens (the `repl` balance precondition), building one tree from the
first token succeeds: the unchecked dereference after the increment in the
tree rule never reads at or past the end of the sequence, and the parse is
total within the stated fuel. -/
theorem C10_balanced_parse_total (ts : List String)
    (hbal : ts.countP isOpenTok = ts.countP isCloseTok) :
    (makeLispObjectF (2 * ts.length + 4) ts).isSome = true := by
  have hz : cnt ts = 0 := by rw [cnt_eq_countP, hbal]; ring
  cases ts with
  | nil => rfl
  | cons t r =>
    by_cases hop : firstChar t = '('
    · have hcr : cnt r = 1 := by
        have : cnt (t :: r) = cnt r - 1 := by
          have hcl : ¬ firstChar t = ')' := by rw [hop]; decide
          simp [cnt, isOpenTok, isCloseTok, hop, hcl]; ring
        omega
      have ostep : makeLispObjectF (2 * (t :: r).length + 4) (t :: r)
          = (if isDigitC (firstChar t) then
               some (Cell.intv (strtollC t), t :: r)
             else if firstChar t = '"' then some (Cell.strv t, t :: r)
             else if ¬ firstChar t = '(' then
               some (Cell.symv (toLowerC t), t :: r)
             else makeLispTreeF (2 * (t :: r).length + 3) (t :: r)) := rfl
      rw [ostep, if_neg (by rw [hop]; decide), if_neg (by rw [hop]; decide),
        if_neg (by rw [hop]; decide)]
      obtain ⟨c, body, rp, after, he, -, -, -⟩ :=
        tree_balanced r.length r t (2 * (t :: r).length + 3) le_rfl
          (by omega) (by simp; omega)
      rw [he]
      rfl
    · have ostep : makeLispObjectF (2 * (t :: r).length + 4) (t :: r)
          = some (objOf t, t :: r) :=
        object_simple (2 * (t :: r).length + 3) t r hop
      rw [ostep]
      rfl

/-- Witness for C10 at the balanced token sequence `( 1 ( 2 ) 3 )`. -/
theorem C10_balanced_parse_total_witness :
    (["(", "1", "(", "2", ")", "3", ")"].countP isOpenTok
      = ["(", "1", "(", "2", ")", "3", ")"].countP isCloseTok) ∧
    (makeLispObjectF (2 * (["(", "1", "(", "2", ")", "3", ")"]).length + 4)
        ["(", "1", "(", "2", ")", "3", ")"]).isSome = true :=
  ⟨by decide, C10_balanced_parse_total ["(", "1", "(", "2", ")", "3", ")"]
    (by decide)⟩

/-! ### The printer (`printLispObject` / `printLispTree`)

`printLispTree` is only ever reached with a pair (from `printLispObject` or
its own recursion), so it is modelled on the pair's two fields.  Fuel keeps
the mutual recursion structural; any fuel at least the number of cells is
enough.  A `double`'s `%f` rendering depends on the unmodelled payload; no
claim prints a float. -/

/-- The decimal digit character for `d < 10`. -/
def digitChar (d : Nat) : Char := Char.ofNat (48 + d)

/-- Decimal digits of `n`, most significant first (fuelled; `n < fuel`). -/
def natDecCharsAux : Nat → Nat → List Char
  | 0, _ => []
  | f + 1, n =>
    if n < 10 then [digitChar n]
    else natDecCharsAux f (n / 10) ++ [digitChar (n % 10)]

def natDecChars (n : Nat) : List Char := natDecCharsAux (n + 1) n

/-- `sprintf("%lld", n)`. -/
def intDecStr (n : Int) : String :=
  if n < 0 then ⟨'-' :: natDecChars n.natAbs⟩ else ⟨natDecChars n.natAbs⟩

mutual

/-- `printLispObject`. -/
def printLispObjectC : Nat → Cell → Option String
  | 0, _ => none
  | f + 1, c =>
    match c with
    | Cell.nullv => some "null"
    | Cell.lamv _ _ _ => some "<Lambda>"
    | Cell.cellsv a d =>
      match printLispTreeC f a d with
      | none => none
      | some s => some ("(" ++ s)
    | Cell.intv n => some (intDecStr n)
    | Cell.fltv => some "0.000000"
    | Cell.strv s => some s
    | Cell.symv s => some s
    | Cell.procv _ => some "bad symbol"
    | Cell.sFalse => some "#f"
    | Cell.sTrue => some "#t"
    | Cell.sNil => some "#nil"
    | Cell.sBad => some "#error"
termination_by structural f _ => f

/-- `printLispTree` on the pair `(a . d)`: head rendering, then `)` for an
absent or nil tail, a space-joined continuation for a pair tail, or
` . tail)` otherwise. -/
def printLispTreeC : Nat → Cell → Cell → Option String
  | 0, _, _ => none
  | f + 1, a, d =>
    match printLispObjectC f a with
    | none => none
    | some sa =>
      match d with
      | Cell.nullv => some (sa ++ ")")
      | Cell.sNil => some (sa ++ ")")
      | Cell.cellsv x y =>
        match printLispTreeC f x y with
        | none => none
        | some sd => some (sa ++ " " ++ sd)
      | x =>
        match printLispObjectC f x with
        | none => none
        | some sx => some (sa ++ " . " ++ sx ++ ")")
termination_by structural f _ _ => f

end

/-! ### The tokenizer (`tokenize`) -/

/-- C locale `isspace` on ASCII. -/
def isSpaceC (c : Char) : Bool := c.toNat = 32 || (9 ≤ c.toNat ∧ c.toNat ≤ 13)

/-- C locale `isprint` on ASCII. -/
def isPrintC (c : Char) : Bool := 32 ≤ c.toNat ∧ c.toNat ≤ 126

def isAlphaC (c : Char) : Bool :=
  (97 ≤ c.toNat ∧ c.toNat ≤ 122) || (65 ≤ c.toNat ∧ c.toNat ≤ 90)

def isAlnumC (c : Char) : Bool := isAlphaC c || isDigitC c

/-- Membership in the `ops` string `"()[]{}:*/"`. -/
def opsChar (c : Char) : Bool :=
  decide (c ∈ ['(', ')', '[', ']', '{', '}', ':', '*', '/'])

/-- The quoted-string copy loop: characters are copied verbatim until the
line ends or a `"` is met (the closing quote is then copied and consumed);
a `'` additionally copies the immediately following character unexamined. -/
def qloop : List Char → (List Char × List Char)
  | [] => ([], [])
  | c :: rest =>
    if c = '\n' then ([], c :: rest)
    else if c = '"' then (['"'], rest)
    else if c = '\'' then
      match rest with
      | [] => (['\''], [])
      | d :: rest2 =>
        if d = '\n' then (['\''], d :: rest2)
        else
          match qloop rest2 with
          | (t, r) => ('\'' :: d :: t, r)
    else
      match qloop rest with
      | (t, r) => (c :: t, r)

/-- One classification step of the tokenizer: the token built at the current
position and the remaining characters, or `none` for an unknown character
(which the caller reports and skips).  The `0x` sub-branch of the numeric
class compares `islower(next[1])` with `'x'`, which is never true, so it is
dead and not modelled. -/
def grabToken : List Char → Option (String × List Char)
  | [] => none
  | c :: rest =>
    if opsChar c then some (⟨[c]⟩, rest)
    else if isAlphaC c || c = '_' then
      some (⟨(c :: rest).takeWhile (fun x => isAlnumC x || x = '_')⟩,
        (c :: rest).dropWhile (fun x => isAlnumC x || x = '_'))
    else if c = '#' ∧ isAlphaC (rest.headD (Char.ofNat 0)) then
      some (⟨'#' :: rest.takeWhile (fun x => isAlnumC x || x = '_')⟩,
        rest.dropWhile (fun x => isAlnumC x || x = '_'))
    else if isDigitC c then
      some (⟨(c :: rest).takeWhile isDigitC⟩,
        (c :: rest).dropWhile isDigitC)
    else if (c = '+' ∨ c = '-') ∧ isDigitC (rest.headD (Char.ofNat 0)) then
      some (⟨c :: rest.takeWhile isDigitC⟩, rest.dropWhile isDigitC)
    else if c = '+' ∨ c = '-' then some (⟨[c]⟩, rest)
    else if c = '<' ∨ c = '>' then
      match rest with
      | '=' :: rest2 => some (⟨[c, '=']⟩, rest2)
      | _ => some (⟨[c]⟩, rest)
    else if c = '"' then
      match qloop rest with
      | (t, r) => some (⟨'"' :: t⟩, r)
    else none

/-- End of input: the NUL terminator (end of the character list) or a
newline. -/
def eoiL : List Char → Bool
  | [] => true
  | c :: _ => c = '\n'

/-- The guarded whitespace skip between tokens (it stops at end of input). -/
def skipG (cs : List Char) : List Char :=
  cs.dropWhile (fun c => !(c = '\n') && (isSpaceC c || !isPrintC c))

/-- The tokenizer main loop.  `none` = fuel ran out (it cannot: every
iteration consumes at least one character). -/
def lexLoop : Nat → List Char → Option (List String)
  | 0, _ => none
  | f + 1, cs =>
    if eoiL cs then some []
    else
      match grabToken cs with
      | none => lexLoop f (skipG cs.tail)
      | some (tok, rest) =>
        match lexLoop f (skipG rest) with
        | none => none
        | some toks => some (tok :: toks)

/-- `tokenize`: the initial whitespace skip is unguarded — on input made
entirely of skippable characters (including the empty line) it walks past
the NUL terminator, which is undefined behaviour (`none`). -/
def tokenizeC (s : String) : Option (List String) :=
  if s.data.all (fun c => isSpaceC c || !isPrintC c) then none
  else
    let cs := s.data.dropWhile (fun c => isSpaceC c || !isPrintC c)
    lexLoop (cs.length + 1) cs

/-- The read interface of `repl`: tokenize the line, reject it unless the
`(`/`)` token counts balance, then build one tree from the first token. -/
def ReadC (text : String) : Option Cell :=
  match tokenizeC text with
  | none => none
  | some toks =>
    if toks.countP isOpenTok = toks.countP isCloseTok then
      match makeLispObjectF (2 * toks.length + 4) toks with
      | none => none
      | some (c, _) => some c
    else none

/-- C9 counterexample: the two-element list `(() 2)` is built purely from the
reader grammar — its tree is the pair with an absent head,
`cellsv nullv (intv 2)` — yet printing it gives `"(null . 2)"`, which reads
back as `cellsv (symv "null") (intv 2)`: the round trip fails on a
reader-constructible proper list containing the empty list. -/
theorem C9_roundtrip_counterexample :
    makeLispObjectF 20 ["(", "(", ")", "2", ")"]
      = some (Cell.cellsv Cell.nullv (Cell.intv 2), [")"])
    ∧ printLispObjectC 10 (Cell.cellsv Cell.nullv (Cell.intv 2))
      = some "(null . 2)"
    ∧ ReadC "(null . 2)" = some (Cell.cellsv (Cell.symv "null") (Cell.intv 2))
    ∧ ¬ ReadC "(null . 2)" = some (Cell.cellsv Cell.nullv (Cell.intv 2)) :=
  ⟨rfl, rfl, rfl, by decide⟩

/-! ### The round-trippable fragment of the reader grammar (C9, amended)

Reader-grammar trees whose pairs have both fields present and whose atoms
re-lex to a single identical token in every position: non-negative integers
(the reader's digit tokens always parse non-negative), symbols that are
single tokens already in lower case, and closed string literals whose content
re-lexes verbatim.  The empty list is excluded: it is represented by an
absent pointer, and an absent head prints as `null` (the counterexample
above). -/

/-- Lower-case ASCII letter. -/
def lowerAl (c : Char) : Bool := 97 ≤ c.toNat ∧ c.toNat ≤ 122

/-- A character of an identifier token after the first. -/
def identChar (c : Char) : Bool := lowerAl c || isDigitC c || c = '_'

/-- Symbol texts the reader can produce that re-lex to exactly themselves:
lower-case identifiers, `#`-identifiers, the single-character operator
tokens other than the parentheses, `+`/`-` (bare or followed by digits),
and `<` `>` `<=` `>=`. -/
def goodSymTok (s : String) : Bool :=
  match s.data with
  | [] => false
  | c :: t =>
    ((lowerAl c || c = '_') && t.all identChar)
    || (c = '#' && (match t with
        | h :: t2 => lowerAl h && t2.all identChar
        | [] => false))
    || (decide (c ∈ ['[', ']', '{', '}', ':', '*', '/']) && decide (t = []))
    || ((c = '+' || c = '-') && t.all isDigitC)
    || ((c = '<' || c = '>') && (decide (t = []) || decide (t = ['='])))

/-- A character allowed inside a round-trippable string literal: printable,
not the quote, and not the single quote (whose copy quirk consumes the
following character). -/
def strContentChar (c : Char) : Bool :=
  isPrintC c && !(c = '"') && !(c = '\'')

/-- String-literal tokens that re-lex to themselves: `"`, safe content,
closing `"`. -/
def goodStrTok (s : String) : Bool :=
  match s.data with
  | '"' :: rest =>
    match rest.reverse with
    | '"' :: rc => rc.all strContentChar
    | _ => false
  | _ => false

/-- The round-trippable trees. -/
def goodRead : Cell → Bool
  | Cell.intv n => decide (0 ≤ n)
  | Cell.symv s => goodSymTok s
  | Cell.strv s => goodStrTok s
  | Cell.cellsv a d => goodRead a && goodRead d
  | _ => false

/-- Number of cells in a tree (a fuel bound for the printer). -/
def cellCount : Cell → Nat
  | Cell.cellsv a d => cellCount a + cellCount d + 1
  | _ => 1

/-- What can legally follow a printed element: end of text, a space
separator, or the closing parenthesis. -/
def sepOK (cs : List Char) : Prop :=
  cs = [] ∨ (∃ r, cs = ' ' :: r) ∨ (∃ r, cs = ')' :: r)

/-- The tokenizer loop turns `cs` into `ts` (for some fuel; every iteration
consumes at least one character, so any fuel above `cs.length` agrees). -/
def LexesTo (cs : List Char) (ts : List String) : Prop :=
  ∃ f, lexLoop f cs = some ts

/-- The text starts with a printable non-space character, so the inter-token
skip cannot eat into it. -/
def headPNS (s : String) : Prop :=
  match s.data with
  | [] => False
  | c :: _ => isPrintC c = true ∧ isSpaceC c = false

/-! #### Span and skip lemmas -/

lemma takeWhile_exact (p : Char → Bool) :
    ∀ (a b : List Char), (∀ x ∈ a, p x = true) →
    (∀ x, b.head? = some x → p x = false) →
    (a ++ b).takeWhile p = a ∧ (a ++ b).dropWhile p = b := by
  intro a
  induction a with
  | nil =>
    intro b _ hb
    cases b with
    | nil => simp
    | cons x b' => simp [List.takeWhile, List.dropWhile, hb x rfl]
  | cons c a' ih =>
    intro b ha hb
    have hc : p c = true := ha c (by simp)
    have := ih b (fun x hx => ha x (by simp [hx])) hb
    simp [List.takeWhile, List.dropWhile, hc, this.1, this.2]

lemma skipG_noop (cs : List Char) (h : ∀ x, cs.head? = some x →
    isPrintC x = true ∧ isSpaceC x = false) : skipG cs = cs := by
  cases cs with
  | nil => rfl
  | cons c r =>
    have := h c rfl
    simp [skipG, List.dropWhile, this.1, this.2]

lemma skipG_space (cs : List Char) : skipG (' ' :: cs) = skipG cs := rfl

/-! #### Tokenizer loop plumbing -/

lemma length_dropWhileC (p : Char → Bool) :
    ∀ (l : List Char), (l.dropWhile p).length ≤ l.length := by
  intro l
  induction l with
  | nil => simp
  | cons c r ih =>
    rw [List.dropWhile]
    cases p c <;> simp <;> omega

lemma qloop_empty : qloop [] = ([], []) := by rw [qloop.eq_def]

lemma qloop_nl (r : List Char) : qloop ('\n' :: r) = ([], '\n' :: r) := by
  rw [qloop.eq_def]; rfl

lemma qloop_quote (r : List Char) : qloop ('"' :: r) = (['"'], r) := by
  rw [qloop.eq_def]; rfl

lemma qloop_apos_nil : qloop ['\''] = (['\''], []) := by
  rw [qloop.eq_def]; rfl

lemma qloop_apos_nl (r : List Char) :
    qloop ('\'' :: '\n' :: r) = (['\''], '\n' :: r) := by
  rw [qloop.eq_def]; rfl

lemma qloop_apos_other (d : Char) (r : List Char) (hd : ¬ d = '\n') :
    qloop ('\'' :: d :: r) = ('\'' :: d :: (qloop r).1, (qloop r).2) := by
  rcases h : qloop r with ⟨t, rr⟩
  rw [qloop.eq_def]
  simp [hd, h]

lemma qloop_other (c : Char) (r : List Char) (h1 : ¬ c = '\n')
    (h2 : ¬ c = '"') (h3 : ¬ c = '\'') :
    qloop (c :: r) = (c :: (qloop r).1, (qloop r).2) := by
  rcases h : qloop r with ⟨t, rr⟩
  rw [qloop.eq_def]
  simp [h1, h2, h3, h]

lemma qloop_len : ∀ (n : Nat) (l : List Char), l.length ≤ n →
    (qloop l).2.length ≤ l.length := by
  intro n
  induction n with
  | zero =>
    intro l hl
    have : l = [] := List.length_eq_zero.mp (Nat.le_zero.mp hl)
    subst this
    simp [qloop_empty]
  | succ m ih =>
    intro l hl
    cases l with
    | nil => simp [qloop_empty]
    | cons c rest =>
      by_cases h1 : c = '\n'
      · subst h1; simp [qloop_nl]
      · by_cases h2 : c = '"'
        · subst h2; simp [qloop_quote]
        · by_cases h3 : c = '\''
          · subst h3
            cases rest with
            | nil => simp [qloop_apos_nil]
            | cons d rest2 =>
              by_cases hd : d = '\n'
              · subst hd; simp [qloop_apos_nl]
              · rw [qloop_apos_other d rest2 hd]
                have := ih rest2 (by simp at hl; omega)
                simp at this ⊢
                omega
          · rw [qloop_other c rest h1 h2 h3]
            have := ih rest (by simp at hl; omega)
            simp at this ⊢
            omega

/-- Lexing a round-trippable string-literal body: the content is copied
verbatim, the closing quote is consumed, and scanning resumes right after. -/
lemma qloop_roundtrip : ∀ (content : List Char),
    (∀ x ∈ content, strContentChar x = true) → ∀ (r : List Char),
    qloop (content ++ '"' :: r) = (content ++ ['"'], r) := by
  intro content
  induction content with
  | nil => intro _ r; simp [qloop_quote]
  | cons c cs ih =>
    intro h r
    have hc := h c (by simp)
    simp [strContentChar] at hc
    have h1 : ¬ c = '\n' := by
      intro he; subst he; simp [isPrintC] at hc
    rw [List.cons_append, qloop_other c _ h1 hc.1.2 hc.2,
      ih (fun x hx => h x (by simp [hx])) r]
    simp

lemma grab_consume (cs : List Char) (t : String) (rest : List Char)
    (h : grabToken cs = some (t, rest)) : rest.length < cs.length := by
  cases cs with
  | nil => simp [grabToken] at h
  | cons c r =>
    simp only [grabToken.eq_def] at h
    split_ifs at h with h1 h2 h3 h4 h5 h6 h7 h8
    · simp at h; rw [← h.2]; simp
    · simp at h
      have hdw : ((c :: r).dropWhile fun x => isAlnumC x || x = '_').length
          ≤ r.length := by
        have hc : (isAlnumC c || decide (c = '_')) = true := by
          rcases Bool.or_eq_true_iff.mp h2 with hh | hh
          · simp [isAlnumC, hh]
          · simp at hh; simp [hh]
        rw [List.dropWhile_cons]
        simp only [hc, if_true]
        exact length_dropWhileC _ r
      rw [← h.2]; simp; omega
    · simp at h
      have := length_dropWhileC (fun x => isAlnumC x || x = '_') r
      rw [← h.2]; simp; omega
    · simp at h
      have hdw : ((c :: r).dropWhile isDigitC).length ≤ r.length := by
        rw [List.dropWhile_cons]
        simp only [h4, if_true]
        exact length_dropWhileC _ r
      rw [← h.2]; simp; omega
    · simp at h
      have := length_dropWhileC isDigitC r
      rw [← h.2]; simp; omega
    · simp at h; rw [← h.2]; simp
    · rcases r with _ | ⟨c2, r2⟩
      · simp at h; rw [← h.2]; simp
      · by_cases he : c2 = '='
        · subst he; simp at h; rw [← h.2]; simp; omega
        · split at h
          · rename_i rest2 heq
            simp at heq
            exact absurd heq.1 he
          · simp at h; rw [← h.2]; simp
    · rcases hq : qloop r with ⟨tq, rq⟩
      have hlen := qloop_len r.length r le_rfl
      rw [hq] at hlen
      simp at hlen
      simp [hq] at h
      rw [← h.2]
      simp
      omega

/-! #### Character-class and lexer-step helpers -/

lemma opsChar_false_of_toNat {c : Char}
    (h : ¬ c.toNat ∈ ([40, 41, 91, 93, 123, 125, 58, 42, 47] : List Nat)) :
    opsChar c = false := by
  simp only [opsChar, decide_eq_false_iff_not]
  intro hm
  fin_cases hm <;> simp at h

lemma cellCount_pos (v : Cell) : 1 ≤ cellCount v := by
  cases v <;> simp [cellCount]

lemma goodRead_ne_null {v : Cell} (h : goodRead v = true) :
    ¬ v = Cell.nullv := by
  rintro rfl; simp [goodRead] at h

lemma string_data_append (s t : String) : (s ++ t).data = s.data ++ t.data :=
  rfl

/-- One unfolding step of the tokenizer loop. -/
lemma lexLoop_succ (f : Nat) (cs : List Char) :
    lexLoop (f + 1) cs =
      (if eoiL cs then some [] else
        match grabToken cs with
        | none => lexLoop f (skipG cs.tail)
        | some (tok, rest) =>
          match lexLoop f (skipG rest) with
          | none => none
          | some toks => some (tok :: toks)) := rfl

/-- One unfolding of the classification step on a nonempty input. -/
lemma grabToken_cons (c : Char) (r : List Char) :
    grabToken (c :: r) =
      (if opsChar c then some (⟨[c]⟩, r)
       else if isAlphaC c || c = '_' then
         some (⟨(c :: r).takeWhile (fun x => isAlnumC x || x = '_')⟩,
           (c :: r).dropWhile (fun x => isAlnumC x || x = '_'))
       else if c = '#' ∧ isAlphaC (r.headD (Char.ofNat 0)) then
         some (⟨'#' :: r.takeWhile (fun x => isAlnumC x || x = '_')⟩,
           r.dropWhile (fun x => isAlnumC x || x = '_'))
       else if isDigitC c then
         some (⟨(c :: r).takeWhile isDigitC⟩, (c :: r).dropWhile isDigitC)
       else if (c = '+' ∨ c = '-') ∧ isDigitC (r.headD (Char.ofNat 0)) then
         some (⟨c :: r.takeWhile isDigitC⟩, r.dropWhile isDigitC)
       else if c = '+' ∨ c = '-' then some (⟨[c]⟩, r)
       else if c = '<' ∨ c = '>' then
         match r with
         | '=' :: rest2 => some (⟨[c, '=']⟩, rest2)
         | _ => some (⟨[c]⟩, r)
       else if c = '"' then
         match qloop r with
         | (t, r2) => some (⟨'"' :: t⟩, r2)
       else none) := rfl

lemma grab_space (r : List Char) : grabToken (' ' :: r) = none := rfl

lemma grab_dot (r : List Char) : grabToken ('.' :: r) = none := rfl

lemma grab_open (r : List Char) : grabToken ('(' :: r) = some ("(", r) := rfl

lemma grab_close (r : List Char) : grabToken (')' :: r) = some (")", r) := rfl

lemma skipG_nil : skipG [] = [] := rfl

lemma skipG_dot (r : List Char) : skipG ('.' :: r) = '.' :: r := rfl

lemma skipG_close (r : List Char) : skipG (')' :: r) = ')' :: r := rfl

/-- The loop step when the classification grabs a token. -/
lemma lexLoop_succ_grab (f : Nat) (cs : List Char) (tok : String)
    (rest : List Char) (h1 : eoiL cs = false)
    (hg : grabToken cs = some (tok, rest)) :
    lexLoop (f + 1) cs =
      (match lexLoop f (skipG rest) with
       | none => none
       | some toks => some (tok :: toks)) := by
  rw [lexLoop_succ, if_neg (by simp [h1]), hg]

/-- The loop step on an unknown character: report, skip, continue. -/
lemma lexLoop_succ_skip (f : Nat) (cs : List Char) (h1 : eoiL cs = false)
    (hg : grabToken cs = none) :
    lexLoop (f + 1) cs = lexLoop f (skipG cs.tail) := by
  rw [lexLoop_succ, if_neg (by simp [h1]), hg]

/-- The tokenizer loop is monotone in its fuel. -/
lemma lex_mono : ∀ (f : Nat) (cs : List Char) (ts : List String),
    lexLoop f cs = some ts → lexLoop (f + 1) cs = some ts := by
  intro f
  induction f with
  | zero => intro cs ts h; simp [lexLoop] at h
  | succ g ih =>
    intro cs ts h
    cases he : eoiL cs with
    | true =>
      rw [lexLoop_succ, if_pos he] at h
      rw [lexLoop_succ, if_pos he]
      exact h
    | false =>
      rcases hg : grabToken cs with _ | ⟨tok, rest⟩
      · rw [lexLoop_succ_skip g cs he hg] at h
        rw [lexLoop_succ_skip (g + 1) cs he hg]
        exact ih _ _ h
      · rw [lexLoop_succ_grab g cs tok rest he hg] at h
        rw [lexLoop_succ_grab (g + 1) cs tok rest he hg]
        rcases hl : lexLoop g (skipG rest) with _ | toks
        · simp only [hl] at h; simp at h
        · simp only [hl] at h
          simp only [ih _ _ hl]
          exact h

lemma lex_mono_le (f g : Nat) (cs : List Char) (ts : List String)
    (hfg : f ≤ g) (h : lexLoop f cs = some ts) : lexLoop g cs = some ts := by
  induction g with
  | zero =>
    have h0 : f = 0 := by omega
    rw [← h0]; exact h
  | succ g2 ih =>
    rcases Nat.lt_or_ge f (g2 + 1) with hlt | hge
    · exact lex_mono g2 cs ts (ih (by omega))
    · have h1 : f = g2 + 1 := by omega
      rw [← h1]; exact h

/-- A successful run of the tokenizer loop also succeeds at the fuel
`tokenize` actually passes: each iteration consumes at least one
character. -/
lemma lex_adequate : ∀ (f : Nat) (cs : List Char) (ts : List String),
    lexLoop f cs = some ts → ∀ g, cs.length + 1 ≤ g → lexLoop g cs = some ts := by
  intro f
  induction f with
  | zero => intro cs ts h; simp [lexLoop] at h
  | succ f0 ih =>
    intro cs ts h g hg
    obtain ⟨g0, rfl⟩ : ∃ g0, g = g0 + 1 := ⟨g - 1, by omega⟩
    cases he : eoiL cs with
    | true =>
      rw [lexLoop_succ, if_pos he] at h
      rw [lexLoop_succ, if_pos he]
      exact h
    | false =>
      have hne : ¬ cs = [] := by rintro rfl; simp [eoiL] at he
      obtain ⟨c, tl, rfl⟩ : ∃ c tl, cs = c :: tl := by
        rcases cs with _ | ⟨c, tl⟩
        · exact absurd rfl hne
        · exact ⟨c, tl, rfl⟩
      rcases hgr : grabToken (c :: tl) with _ | ⟨tok, rest⟩
      · rw [lexLoop_succ_skip f0 _ he hgr] at h
        rw [lexLoop_succ_skip g0 _ he hgr]
        have hlen : (skipG tl).length + 1 ≤ g0 := by
          have := length_dropWhileC
            (fun c => !(c = '\n') && (isSpaceC c || !isPrintC c)) tl
          simp [skipG]
          simp at hg
          omega
        exact ih _ _ h g0 hlen
      · rw [lexLoop_succ_grab f0 _ tok rest he hgr] at h
        rw [lexLoop_succ_grab g0 _ tok rest he hgr]
        rcases hl : lexLoop f0 (skipG rest) with _ | toks
        · simp only [hl] at h; simp at h
        · simp only [hl] at h
          have hcons := grab_consume _ _ _ hgr
          have hlen : (skipG rest).length + 1 ≤ g0 := by
            have := length_dropWhileC
              (fun c => !(c = '\n') && (isSpaceC c || !isPrintC c)) rest
            simp [skipG]
            simp at hg hcons
            omega
          simp only [ih _ _ hl g0 hlen]
          exact h

/-! #### Decimal printing and `strtoll` round trip -/

lemma digitChar_toNat (d : Nat) (h : d < 10) : (digitChar d).toNat = 48 + d := by
  interval_cases d <;> decide

lemma digitChar_isDigit (d : Nat) (h : d < 10) :
    isDigitC (digitChar d) = true := by
  interval_cases d <;> decide

lemma digitChar_ne_zero (d : Nat) (h1 : 1 ≤ d) (h2 : d < 10) :
    ¬ digitChar d = '0' := by
  interval_cases d <;> decide

lemma natDecCharsAux_digits : ∀ (f m : Nat), m < f →
    ¬ natDecCharsAux f m = [] ∧
    ∀ x ∈ natDecCharsAux f m, isDigitC x = true := by
  intro f
  induction f with
  | zero => intro m hm; omega
  | succ f0 ih =>
    intro m hm
    rw [natDecCharsAux]
    split_ifs with h10
    · exact ⟨by simp, by simpa using digitChar_isDigit m h10⟩
    · have hlt : m / 10 < f0 := by omega
      have := ih (m / 10) hlt
      constructor
      · simp [this.1]
      · intro x hx
        simp at hx
        rcases hx with hx | hx
        · exact this.2 x hx
        · rw [hx]; exact digitChar_isDigit (m % 10) (by omega)

lemma natDecCharsAux_head : ∀ (f m : Nat), m < f → 1 ≤ m →
    ∀ c cs, natDecCharsAux f m = c :: cs → ¬ c = '0' := by
  intro f
  induction f with
  | zero => intro m hm; omega
  | succ f0 ih =>
    intro m hm h1 c cs hc
    rw [natDecCharsAux] at hc
    split_ifs at hc with h10
    · simp at hc
      rw [← hc.1]
      exact digitChar_ne_zero m h1 h10
    · have hlt : m / 10 < f0 := by omega
      have h1q : 1 ≤ m / 10 := by omega
      obtain ⟨c2, cs2, he⟩ : ∃ c2 cs2, natDecCharsAux f0 (m / 10) = c2 :: cs2 := by
        rcases hne : natDecCharsAux f0 (m / 10) with _ | ⟨c2, cs2⟩
        · exact absurd hne (natDecCharsAux_digits f0 (m / 10) hlt).1
        · exact ⟨c2, cs2, rfl⟩
      rw [he] at hc
      simp at hc
      rw [← hc.1]
      exact ih (m / 10) hlt h1q c2 cs2 he

lemma natDecCharsAux_val : ∀ (f m : Nat), m < f → ∀ acc : Int,
    (natDecCharsAux f m).foldl
      (fun a c => a * 10 + ((c.toNat - 48 : Nat) : Int)) acc
      = acc * 10 ^ (natDecCharsAux f m).length + m := by
  intro f
  induction f with
  | zero => intro m hm; omega
  | succ f0 ih =>
    intro m hm acc
    rw [natDecCharsAux]
    split_ifs with h10
    · simp [digitChar_toNat m h10]
    · have hlt : m / 10 < f0 := by omega
      rw [List.foldl_append]
      rw [ih (m / 10) hlt acc]
      simp only [List.foldl_cons, List.foldl_nil, List.length_append,
        List.length_cons, List.length_nil, Nat.zero_add]
      rw [digitChar_toNat (m % 10) (by omega)]
      have hmod : (48 + m % 10 - 48 : Nat) = m % 10 := by omega
      rw [hmod]
      have hdm : ((m / 10 : Nat) : Int) * 10 + ((m % 10 : Nat) : Int)
          = (m : Int) := by
        have h2 := Nat.div_add_mod m 10
        push_cast
        omega
      rw [pow_succ]
      linear_combination hdm

lemma takeDigits_all (base : Nat) (valid : Char → Bool) (toVal : Char → Nat) :
    ∀ (l : List Char) (acc : Int), (∀ x ∈ l, valid x = true) →
    takeDigits base valid toVal l acc
      = l.foldl (fun a c => a * base + (toVal c : Int)) acc := by
  intro l
  induction l with
  | nil => intro acc _; rfl
  | cons c cs ih =>
    intro acc h
    rw [takeDigits, if_pos (h c (by simp))]
    rw [ih _ (fun x hx => h x (by simp [hx]))]
    rw [List.foldl_cons]

/-- The decimal instance of `takeDigits_all`, with the numeral cast
normalised. -/
lemma takeDigits_dec (l : List Char) (acc : Int)
    (h : ∀ x ∈ l, isDigitC x = true) :
    takeDigits 10 isDigitC (fun c => c.toNat - 48) l acc
      = l.foldl (fun a c => a * 10 + ((c.toNat - 48 : Nat) : Int)) acc := by
  rw [takeDigits_all 10 isDigitC _ l acc h]
  norm_num

/-- `strtoll` parses the decimal print of a natural number back to it. -/
lemma strtoll_dec (m : Nat) : strtollC ⟨natDecChars m⟩ = (m : Int) := by
  rcases Nat.eq_zero_or_pos m with rfl | hm
  · rfl
  · obtain ⟨c, cs, he⟩ : ∃ c cs, natDecCharsAux (m + 1) m = c :: cs := by
      rcases hne : natDecCharsAux (m + 1) m with _ | ⟨c, cs⟩
      · exact absurd hne (natDecCharsAux_digits (m + 1) m (by omega)).1
      · exact ⟨c, cs, rfl⟩
    have hc0 : ¬ c = '0' :=
      natDecCharsAux_head (m + 1) m (by omega) hm c cs he
    have hdig : ∀ x ∈ c :: cs, isDigitC x = true := by
      rw [← he]
      exact (natDecCharsAux_digits (m + 1) m (by omega)).2
    have hsd : (⟨natDecChars m⟩ : String).data = c :: cs := he
    unfold strtollC
    rw [hsd]
    split
    · rename_i x c2 rest heq
      simp at heq
      exact absurd heq.1 hc0
    · rename_i rest heq
      simp at heq
      exact absurd heq.1 hc0
    · rw [takeDigits_dec (c :: cs) 0 hdig]
      have hv := natDecCharsAux_val (m + 1) m (by omega) 0
      rw [he] at hv
      simp at hv ⊢
      exact hv

/-! #### Lower-casing is the identity on round-trippable symbol text -/

lemma toLowerC_fix (l : List Char)
    (h : ∀ x ∈ l, ¬ (65 ≤ x.toNat ∧ x.toNat ≤ 90)) :
    toLowerC ⟨l⟩ = ⟨l⟩ := by
  simp only [toLowerC]
  congr 1
  induction l with
  | nil => rfl
  | cons c cs ih =>
    simp only [List.map_cons]
    rw [if_neg (h c (by simp))]
    rw [ih (fun x hx => h x (by simp [hx]))]

/-! #### Per-class classification lemmas for the tokenizer -/

lemma sep_head (rs : List Char) (hsep : sepOK rs) (p : Char → Bool)
    (h1 : p ' ' = false) (h2 : p ')' = false) :
    ∀ x, rs.head? = some x → p x = false := by
  rcases hsep with rfl | ⟨r, rfl⟩ | ⟨r, rfl⟩
  · intro x hx; simp at hx
  · intro x hx; simp at hx; rw [← hx]; exact h1
  · intro x hx; simp at hx; rw [← hx]; exact h2

lemma lowerAl_isAlpha {c : Char} (h : lowerAl c = true) : isAlphaC c = true := by
  simp [lowerAl] at h
  simp [isAlphaC]
  omega

lemma lowerAl_isAlnum {c : Char} (h : lowerAl c = true) : isAlnumC c = true := by
  simp [isAlnumC, lowerAl_isAlpha h]

lemma digit_isAlnum {c : Char} (h : isDigitC c = true) : isAlnumC c = true := by
  simp [isAlnumC, h]

lemma identChar_pred {c : Char} (h : identChar c = true) :
    (isAlnumC c || decide (c = '_')) = true := by
  simp only [identChar, Bool.or_eq_true] at h
  rcases h with (h | h) | h
  · simp [lowerAl_isAlnum h]
  · simp [digit_isAlnum h]
  · simp [h]

lemma printable_of_range {c : Char} (h1 : 33 ≤ c.toNat) (h2 : c.toNat ≤ 126) :
    isPrintC c = true ∧ isSpaceC c = false := by
  simp [isPrintC, isSpaceC]
  omega

lemma alpha_or_underscore_toNat {c : Char}
    (h : (isAlphaC c || decide (c = '_')) = true) :
    (65 ≤ c.toNat ∧ c.toNat ≤ 90) ∨ (97 ≤ c.toNat ∧ c.toNat ≤ 122)
      ∨ c.toNat = 95 := by
  simp [isAlphaC] at h
  rcases h with (h | h) | h
  · right; left; exact h
  · left; exact h
  · rw [h]; right; right; rfl

/-- Identifier-class token: a lower-case/underscore head then identifier
characters, stopped by the separator. -/
lemma grab_ident (c : Char) (t rs : List Char)
    (hc : (lowerAl c || decide (c = '_')) = true)
    (ht : ∀ x ∈ t, identChar x = true)
    (hsep : sepOK rs) :
    grabToken ((c :: t) ++ rs) = some (⟨c :: t⟩, rs) := by
  have hrange : 95 ≤ c.toNat ∧ c.toNat ≤ 122 := by
    simp [lowerAl] at hc
    rcases hc with hc | hc
    · omega
    · rw [hc]; constructor <;> decide
  have hops : opsChar c = false := by
    apply opsChar_false_of_toNat
    simp
    omega
  have halpha : (isAlphaC c || decide (c = '_')) = true := by
    simp [lowerAl] at hc
    rcases hc with hc | hc
    · simp [isAlphaC]; omega
    · simp [hc]
  have hall : ∀ x ∈ c :: t, (isAlnumC x || decide (x = '_')) = true := by
    intro x hx
    simp at hx
    rcases hx with rfl | hx
    · simp [isAlnumC, isAlphaC] at halpha ⊢
      rcases halpha with h | h
      · left; omega
      · simp [h]
    · exact identChar_pred (ht x hx)
  have hfail := sep_head rs hsep (fun x => isAlnumC x || decide (x = '_'))
    (by decide) (by decide)
  have span := takeWhile_exact (fun x => isAlnumC x || decide (x = '_'))
    (c :: t) rs hall hfail
  rw [List.cons_append, grabToken_cons]
  rw [if_neg (by simp [hops]), if_pos halpha]
  rw [show (c :: (t ++ rs)) = ((c :: t) ++ rs) by simp]
  rw [span.1, span.2]

/-- `#`-identifier token: `#`, a lower-case letter, then identifier
characters. -/
lemma grab_hash (h : Char) (t2 rs : List Char)
    (hh : lowerAl h = true)
    (ht : ∀ x ∈ t2, identChar x = true)
    (hsep : sepOK rs) :
    grabToken (('#' :: h :: t2) ++ rs) = some (⟨'#' :: h :: t2⟩, rs) := by
  have hall : ∀ x ∈ h :: t2, (isAlnumC x || decide (x = '_')) = true := by
    intro x hx
    simp at hx
    rcases hx with rfl | hx
    · simp [lowerAl_isAlnum hh]
    · exact identChar_pred (ht x hx)
  have hfail := sep_head rs hsep (fun x => isAlnumC x || decide (x = '_'))
    (by decide) (by decide)
  have span := takeWhile_exact (fun x => isAlnumC x || decide (x = '_'))
    (h :: t2) rs hall hfail
  rw [List.cons_append, grabToken_cons]
  rw [if_neg (by decide), if_neg (by decide)]
  rw [if_pos (by
    refine ⟨rfl, ?_⟩
    rw [List.cons_append]
    simp [lowerAl_isAlpha hh])]
  rw [span.1, span.2]

/-- Digit-run token. -/
lemma grab_digits (c : Char) (t rs : List Char)
    (hc : isDigitC c = true)
    (ht : ∀ x ∈ t, isDigitC x = true)
    (hsep : sepOK rs) :
    grabToken ((c :: t) ++ rs) = some (⟨c :: t⟩, rs) := by
  have hrange : 48 ≤ c.toNat ∧ c.toNat ≤ 57 := by simpa [isDigitC] using hc
  have hops : opsChar c = false := by
    apply opsChar_false_of_toNat
    simp
    omega
  have hall : ∀ x ∈ c :: t, isDigitC x = true := by
    intro x hx
    simp at hx
    rcases hx with rfl | hx
    · exact hc
    · exact ht x hx
  have hfail := sep_head rs hsep isDigitC (by decide) (by decide)
  have span := takeWhile_exact isDigitC (c :: t) rs hall hfail
  rw [List.cons_append, grabToken_cons]
  rw [if_neg (by simp [hops])]
  rw [if_neg (by
    intro hcond
    rcases alpha_or_underscore_toNat hcond with h | h | h <;> omega)]
  rw [if_neg (by rintro ⟨rfl, -⟩; simp [isDigitC] at hc)]
  rw [if_pos hc]
  rw [show (c :: (t ++ rs)) = ((c :: t) ++ rs) by simp]
  rw [span.1, span.2]

/-- Bare `+`/`-` token (no digit follows). -/
lemma grab_sign (c : Char) (rs : List Char)
    (hc : c = '+' ∨ c = '-')
    (hsep : sepOK rs) :
    grabToken (c :: rs) = some (⟨[c]⟩, rs) := by
  rcases hc with rfl | rfl <;> rcases hsep with rfl | ⟨r, rfl⟩ | ⟨r, rfl⟩ <;> rfl

/-- Signed-number token: `+`/`-` immediately followed by digits. -/
lemma grab_signed (c d : Char) (t rs : List Char)
    (hc : c = '+' ∨ c = '-')
    (hd : isDigitC d = true)
    (ht : ∀ x ∈ t, isDigitC x = true)
    (hsep : sepOK rs) :
    grabToken ((c :: d :: t) ++ rs) = some (⟨c :: d :: t⟩, rs) := by
  have hall : ∀ x ∈ d :: t, isDigitC x = true := by
    intro x hx
    simp at hx
    rcases hx with rfl | hx
    · exact hd
    · exact ht x hx
  have hfail := sep_head rs hsep isDigitC (by decide) (by decide)
  have span := takeWhile_exact isDigitC (d :: t) rs hall hfail
  have hdx : isDigitC (((d :: t) ++ rs).headD (Char.ofNat 0)) = true := by
    simpa using hd
  rcases hc with rfl | rfl
  · rw [List.cons_append, grabToken_cons]
    rw [if_neg (by decide), if_neg (by decide),
      if_neg (by rintro ⟨h, -⟩; simp at h),
      if_neg (by decide), if_pos ⟨Or.inl rfl, hdx⟩]
    rw [span.1, span.2]
  · rw [List.cons_append, grabToken_cons]
    rw [if_neg (by decide), if_neg (by decide),
      if_neg (by rintro ⟨h, -⟩; simp at h),
      if_neg (by decide), if_pos ⟨Or.inr rfl, hdx⟩]
    rw [span.1, span.2]

/-- Bare `<`/`>` token (the separator is never `=`). -/
lemma grab_cmp1 (c : Char) (rs : List Char)
    (hc : c = '<' ∨ c = '>')
    (hsep : sepOK rs) :
    grabToken (c :: rs) = some (⟨[c]⟩, rs) := by
  rcases hc with rfl | rfl <;> rcases hsep with rfl | ⟨r, rfl⟩ | ⟨r, rfl⟩ <;> rfl

/-- `<=`/`>=` token. -/
lemma grab_cmp2 (c : Char) (rs : List Char)
    (hc : c = '<' ∨ c = '>') :
    grabToken ((c :: ['=']) ++ rs) = some (⟨[c, '=']⟩, rs) := by
  rcases hc with rfl | rfl <;> rfl

/-- Closed string-literal token: the copy loop stops at the closing quote. -/
lemma grab_str (content rs : List Char)
    (hcontent : ∀ x ∈ content, strContentChar x = true) :
    grabToken (('"' :: content ++ ['"']) ++ rs)
      = some (⟨'"' :: content ++ ['"']⟩, rs) := by
  have hshape : (('"' :: content ++ ['"']) ++ rs)
      = '"' :: (content ++ '"' :: rs) := by simp
  have hstep : grabToken ('"' :: (content ++ '"' :: rs))
      = (match qloop (content ++ '"' :: rs) with
         | (t, r2) => some (⟨'"' :: t⟩, r2)) := rfl
  rw [hshape, hstep, qloop_roundtrip content hcontent rs]
  simp

/-! #### The round-trip bundle

For an object: its printed text, the token list that text re-lexes to, and
the parse of those tokens back to the object.  For a tree (the contents of a
parenthesised form): the same, with the final `)` token included and the
parse phrased on the tree rule. -/

def SB (v : Cell) : Prop :=
  ∃ txt toks,
    (∀ f, cellCount v ≤ f → printLispObjectC f v = some txt) ∧
    headPNS txt ∧
    (match toks with
     | [] => False
     | h :: _ => ¬ firstChar h = ')') ∧
    toks.countP isOpenTok = toks.countP isCloseTok ∧
    (∀ rs ts', sepOK rs → (∃ g, lexLoop g (skipG rs) = some ts') →
      ∃ g2, lexLoop g2 (txt.data ++ rs) = some (toks ++ ts')) ∧
    (∃ pre lst, toks = pre ++ [lst] ∧
      ∀ f post, 2 * toks.length + 2 ≤ f →
        makeLispObjectF f (toks ++ post) = some (v, lst :: post))

def TB (a d : Cell) : Prop :=
  ∃ ttxt ttoks body,
    (∀ f, cellCount a + cellCount d ≤ f → printLispTreeC f a d = some ttxt) ∧
    headPNS ttxt ∧
    ttoks.countP isOpenTok + 1 = ttoks.countP isCloseTok ∧
    (∀ rs ts', sepOK rs → (∃ g, lexLoop g (skipG rs) = some ts') →
      ∃ g2, lexLoop g2 (ttxt.data ++ rs) = some (ttoks ++ ts')) ∧
    ttoks = body ++ [")"] ∧ 1 ≤ body.length ∧
    (∀ cur post f, 2 * body.length + 2 ≤ f →
      makeLispTreeF f (cur :: (body ++ ")" :: post))
        = some (Cell.cellsv a d, ")" :: post))

lemma headPNS_shape (s : String) (h : headPNS s) :
    ∃ c tr, s.data = c :: tr ∧ isPrintC c = true ∧ isSpaceC c = false := by
  unfold headPNS at h
  rcases htd : s.data with _ | ⟨c, tr⟩ <;> rw [htd] at h
  · exact absurd h (by simp)
  · exact ⟨c, tr, rfl, h.1, h.2⟩

lemma headPNS_mk (c : Char) (tr : List Char) (h1 : isPrintC c = true)
    (h2 : isSpaceC c = false) : headPNS ⟨c :: tr⟩ := by
  unfold headPNS
  exact ⟨h1, h2⟩

/-- An atom whose printed text is one self-delimiting token classifying back
to the atom satisfies the bundle. -/
lemma SB_atom (v : Cell) (tok : String)
    (hPNS : headPNS tok)
    (hnp : ¬ firstChar tok = '(' ∧ ¬ firstChar tok = ')')
    (hgrab : ∀ rs, sepOK rs → grabToken (tok.data ++ rs) = some (tok, rs))
    (hobj : objOf tok = v)
    (hcnt : cellCount v = 1)
    (hpr : ∀ f, 1 ≤ f → printLispObjectC f v = some tok) :
    SB v := by
  refine ⟨tok, [tok], ?_, hPNS, hnp.2, ?_, ?_, ?_⟩
  · intro f hf
    exact hpr f (by rw [hcnt] at hf; exact hf)
  · simp [List.countP_cons, isOpenTok, isCloseTok, hnp.1, hnp.2]
  · rintro rs ts' hsep ⟨g, hg⟩
    refine ⟨g + 1, ?_⟩
    obtain ⟨c, tr, htd, hcp, hcs⟩ := headPNS_shape tok hPNS
    have heoi : eoiL (tok.data ++ rs) = false := by
      rw [htd]
      simp [eoiL]
      rintro rfl
      simp [isPrintC] at hcp
    rw [lexLoop_succ_grab g (tok.data ++ rs) tok rs heoi (hgrab rs hsep)]
    simp only [hg]
    rfl
  · refine ⟨[], tok, rfl, ?_⟩
    intro f post hf
    obtain ⟨g, rfl⟩ : ∃ g, f = g + 1 := ⟨f - 1, by omega⟩
    rw [show (([tok] : List String) ++ post) = tok :: post from rfl]
    rw [object_simple g tok post hnp.1, hobj]

/-! #### The bundle for each atom class -/

lemma identChar_not_upper {x : Char} (h : identChar x = true) :
    ¬ (65 ≤ x.toNat ∧ x.toNat ≤ 90) := by
  simp only [identChar, Bool.or_eq_true, decide_eq_true_eq] at h
  rcases h with (h | h) | h
  · simp [lowerAl] at h; omega
  · simp [isDigitC] at h; omega
  · rw [h]; decide

lemma objOf_sym (s : String) (hd : ¬ isDigitC (firstChar s) = true)
    (hq : ¬ firstChar s = '"')
    (hl : toLowerC s = s) : objOf s = Cell.symv s := by
  unfold objOf
  rw [if_neg hd, if_neg hq, hl]

lemma SB_int (n : Int) (hn : 0 ≤ n) : SB (Cell.intv n) := by
  obtain ⟨c, cs, he⟩ : ∃ c cs, natDecChars n.natAbs = c :: cs := by
    rcases hne : natDecChars n.natAbs with _ | ⟨c, cs⟩
    · exact absurd hne
        (natDecCharsAux_digits (n.natAbs + 1) n.natAbs (by omega)).1
    · exact ⟨c, cs, rfl⟩
  have hdig : ∀ x ∈ c :: cs, isDigitC x = true := by
    rw [← he]
    exact (natDecCharsAux_digits (n.natAbs + 1) n.natAbs (by omega)).2
  have hc := hdig c (by simp)
  have hcb : 48 ≤ c.toNat ∧ c.toNat ≤ 57 := by simpa [isDigitC] using hc
  apply SB_atom (Cell.intv n) ⟨natDecChars n.natAbs⟩
  · rw [he]
    exact headPNS_mk c cs (printable_of_range (by omega) (by omega)).1
      (printable_of_range (by omega) (by omega)).2
  · have hfc : firstChar ⟨natDecChars n.natAbs⟩ = c := by rw [he]; rfl
    rw [hfc]
    constructor
    · rintro rfl; exact absurd hcb (by decide)
    · rintro rfl; exact absurd hcb (by decide)
  · intro rs hsep
    have hdq : (⟨natDecChars n.natAbs⟩ : String).data = c :: cs := he
    rw [hdq, he]
    exact grab_digits c cs rs hc (fun x hx => hdig x (by simp [hx])) hsep
  · have hfc : firstChar ⟨natDecChars n.natAbs⟩ = c := by rw [he]; rfl
    unfold objOf
    rw [if_pos (by rw [hfc]; exact hc)]
    rw [strtoll_dec]
    rw [Int.natAbs_of_nonneg hn]
  · rfl
  · intro f hf
    obtain ⟨g, rfl⟩ : ∃ g, f = g + 1 := ⟨f - 1, by omega⟩
    have hstep : printLispObjectC (g + 1) (Cell.intv n)
        = some (intDecStr n) := rfl
    rw [hstep, intDecStr, if_neg (by omega)]

lemma SB_str (s : String) (h : goodStrTok s = true) : SB (Cell.strv s) := by
  obtain ⟨sd⟩ := s
  unfold goodStrTok at h
  rcases hd : sd with _ | ⟨c0, rest⟩ <;> rw [hd] at h
  · simp at h
  · subst hd
    split at h
    · rename_i rest2 heq
      have hc0 : c0 = '"' := by
        have := congrArg (fun l => l.headD (Char.ofNat 0)) heq
        simpa using this
      have hrest : rest = rest2 := by
        have := congrArg List.tail heq
        simpa using this
      subst hc0
      subst hrest
      split at h
      · rename_i rc hrev
        have hshape : rest = rc.reverse ++ ['"'] := by
          have := congrArg List.reverse hrev
          simpa using this
        have hcontent : ∀ x ∈ rc.reverse, strContentChar x = true := by
          simp only [List.all_eq_true] at h
          intro x hx
          exact h x (by simpa using hx)
        subst hshape
        have hfc : firstChar ⟨'"' :: rc.reverse ++ ['"']⟩ = '"' := rfl
        apply SB_atom (Cell.strv ⟨'"' :: rc.reverse ++ ['"']⟩)
          ⟨'"' :: rc.reverse ++ ['"']⟩
        · exact headPNS_mk '"' _ (by decide) (by decide)
        · constructor <;> (rw [hfc]; decide)
        · intro rs hsep
          exact grab_str rc.reverse rs hcontent
        · unfold objOf
          rw [if_neg (by rw [hfc]; decide), if_pos hfc]
        · rfl
        · intro f hf
          obtain ⟨g, rfl⟩ : ∃ g, f = g + 1 := ⟨f - 1, by omega⟩
          rfl
      · simp at h
    · simp at h

lemma SB_sym (s : String) (h : goodSymTok s = true) : SB (Cell.symv s) := by
  obtain ⟨sd⟩ := s
  unfold goodSymTok at h
  rcases hd : sd with _ | ⟨c, t⟩ <;> rw [hd] at h
  · simp at h
  · subst hd
    have hpr : ∀ f, 1 ≤ f → printLispObjectC f (Cell.symv ⟨c :: t⟩)
        = some ⟨c :: t⟩ := by
      intro f hf
      obtain ⟨g, rfl⟩ : ∃ g, f = g + 1 := ⟨f - 1, by omega⟩
      rfl
    simp only [Bool.or_eq_true, Bool.and_eq_true, decide_eq_true_eq,
      List.all_eq_true] at h
    rcases h with (((h | h) | h) | h) | h
    · -- lower-case/underscore identifier
      obtain ⟨hc, ht⟩ := h
      have hcb : (lowerAl c || decide (c = '_')) = true := by
        rcases hc with h1 | h1 <;> simp [h1]
      have hrange : 95 ≤ c.toNat ∧ c.toNat ≤ 122 := by
        rcases hc with h1 | h1
        · simp [lowerAl] at h1; omega
        · rw [h1]; constructor <;> decide
      apply SB_atom (Cell.symv ⟨c :: t⟩) ⟨c :: t⟩
      · exact headPNS_mk c t (printable_of_range (by omega) (by omega)).1
          (printable_of_range (by omega) (by omega)).2
      · constructor
        · rintro hx
          rw [show firstChar ⟨c :: t⟩ = c from rfl] at hx
          rw [hx] at hrange
          exact absurd hrange (by decide)
        · rintro hx
          rw [show firstChar ⟨c :: t⟩ = c from rfl] at hx
          rw [hx] at hrange
          exact absurd hrange (by decide)
      · intro rs hsep
        exact grab_ident c t rs hcb ht hsep
      · apply objOf_sym
        · rw [show firstChar ⟨c :: t⟩ = c from rfl]
          simp [isDigitC]
          omega
        · rw [show firstChar ⟨c :: t⟩ = c from rfl]
          rintro rfl
          exact absurd hrange (by decide)
        · apply toLowerC_fix
          intro x hx
          simp at hx
          rcases hx with rfl | hx
          · omega
          · exact identChar_not_upper (ht x hx)
      · rfl
      · exact hpr
    · -- `#`-identifier
      obtain ⟨rfl, h2⟩ := h
      rcases t with _ | ⟨h1, t2⟩
      · simp at h2
      · simp only [Bool.and_eq_true, List.all_eq_true] at h2
        obtain ⟨hh, ht2⟩ := h2
        have hfc : firstChar ⟨'#' :: h1 :: t2⟩ = '#' := rfl
        apply SB_atom (Cell.symv ⟨'#' :: h1 :: t2⟩) ⟨'#' :: h1 :: t2⟩
        · exact headPNS_mk '#' _ (by decide) (by decide)
        · constructor <;> (intro hx; rw [hfc] at hx; exact absurd hx (by decide))
        · intro rs hsep
          exact grab_hash h1 t2 rs hh ht2 hsep
        · apply objOf_sym
          · rw [hfc]; decide
          · rw [hfc]; decide
          · apply toLowerC_fix
            intro x hx
            simp at hx
            rcases hx with rfl | rfl | hx
            · decide
            · have := hh; simp [lowerAl] at this; omega
            · exact identChar_not_upper (ht2 x hx)
        · rfl
        · exact hpr
    · -- single-character operator tokens (no parentheses)
      obtain ⟨hmem, rfl⟩ := h
      have hops : opsChar c = true := by fin_cases hmem <;> decide
      have hpn : isPrintC c = true ∧ isSpaceC c = false := by
        fin_cases hmem <;> exact ⟨by decide, by decide⟩
      have hno : ¬ c = '(' ∧ ¬ c = ')' ∧ ¬ c = '"' ∧ isDigitC c = false
          ∧ ¬ (65 ≤ c.toNat ∧ c.toNat ≤ 90) := by
        fin_cases hmem <;>
          exact ⟨by decide, by decide, by decide, by decide, by decide⟩
      have hfc : firstChar ⟨[c]⟩ = c := rfl
      apply SB_atom (Cell.symv ⟨[c]⟩) ⟨[c]⟩
      · exact headPNS_mk c [] hpn.1 hpn.2
      · constructor <;> (intro hx; rw [hfc] at hx)
        · exact hno.1 hx
        · exact hno.2.1 hx
      · intro rs hsep
        rw [show ((⟨[c]⟩ : String).data ++ rs) = c :: rs from rfl]
        rw [grabToken_cons, if_pos hops]
      · apply objOf_sym
        · rw [hfc]; simp [hno.2.2.2.1]
        · rw [hfc]; exact hno.2.2.1
        · apply toLowerC_fix
          intro x hx
          simp at hx
          rw [hx]
          exact hno.2.2.2.2
      · rfl
      · exact hpr
    · -- `+`/`-`, bare or followed by digits
      obtain ⟨hc, ht⟩ := h
      rcases t with _ | ⟨d, t2⟩
      · rcases hc with rfl | rfl
        · apply SB_atom (Cell.symv ⟨['+']⟩) ⟨['+']⟩
          · exact headPNS_mk '+' [] (by decide) (by decide)
          · constructor <;> decide
          · intro rs hsep
            exact grab_sign '+' rs (Or.inl rfl) hsep
          · decide
          · rfl
          · exact hpr
        · apply SB_atom (Cell.symv ⟨['-']⟩) ⟨['-']⟩
          · exact headPNS_mk '-' [] (by decide) (by decide)
          · constructor <;> decide
          · intro rs hsep
            exact grab_sign '-' rs (Or.inr rfl) hsep
          · decide
          · rfl
          · exact hpr
      · have hdd : isDigitC d = true := ht d (by simp)
        have ht2 : ∀ x ∈ t2, isDigitC x = true := fun x hx => ht x (by simp [hx])
        have hnotup : ∀ x ∈ d :: t2, ¬ (65 ≤ x.toNat ∧ x.toNat ≤ 90) := by
          intro x hx
          have hxx := ht x hx
          simp [isDigitC] at hxx
          omega
        rcases hc with rfl | rfl
        · have hfc : firstChar ⟨'+' :: d :: t2⟩ = '+' := rfl
          apply SB_atom (Cell.symv ⟨'+' :: d :: t2⟩) ⟨'+' :: d :: t2⟩
          · exact headPNS_mk '+' _ (by decide) (by decide)
          · constructor <;> (intro hx; rw [hfc] at hx; exact absurd hx (by decide))
          · intro rs hsep
            exact grab_signed '+' d t2 rs (Or.inl rfl) hdd ht2 hsep
          · apply objOf_sym
            · rw [hfc]; decide
            · rw [hfc]; decide
            · apply toLowerC_fix
              intro x hx
              simp at hx
              rcases hx with rfl | hx
              · decide
              · exact hnotup x (by simp [hx])
          · rfl
          · exact hpr
        · have hfc : firstChar ⟨'-' :: d :: t2⟩ = '-' := rfl
          apply SB_atom (Cell.symv ⟨'-' :: d :: t2⟩) ⟨'-' :: d :: t2⟩
          · exact headPNS_mk '-' _ (by decide) (by decide)
          · constructor <;> (intro hx; rw [hfc] at hx; exact absurd hx (by decide))
          · intro rs hsep
            exact grab_signed '-' d t2 rs (Or.inr rfl) hdd ht2 hsep
          · apply objOf_sym
            · rw [hfc]; decide
            · rw [hfc]; decide
            · apply toLowerC_fix
              intro x hx
              simp at hx
              rcases hx with rfl | hx
              · decide
              · exact hnotup x (by simp [hx])
          · rfl
          · exact hpr
    · -- `<` `>` `<=` `>=`
      obtain ⟨hc, ht⟩ := h
      rcases ht with rfl | rfl
      · rcases hc with rfl | rfl
        · apply SB_atom (Cell.symv ⟨['<']⟩) ⟨['<']⟩
          · exact headPNS_mk '<' [] (by decide) (by decide)
          · constructor <;> decide
          · intro rs hsep
            exact grab_cmp1 '<' rs (Or.inl rfl) hsep
          · decide
          · rfl
          · exact hpr
        · apply SB_atom (Cell.symv ⟨['>']⟩) ⟨['>']⟩
          · exact headPNS_mk '>' [] (by decide) (by decide)
          · constructor <;> decide
          · intro rs hsep
            exact grab_cmp1 '>' rs (Or.inr rfl) hsep
          · decide
          · rfl
          · exact hpr
      · rcases hc with rfl | rfl
        · apply SB_atom (Cell.symv ⟨['<', '=']⟩) ⟨['<', '=']⟩
          · exact headPNS_mk '<' ['='] (by decide) (by decide)
          · constructor <;> decide
          · intro rs hsep
            exact grab_cmp2 '<' rs (Or.inl rfl)
          · decide
          · rfl
          · exact hpr
        · apply SB_atom (Cell.symv ⟨['>', '=']⟩) ⟨['>', '=']⟩
          · exact headPNS_mk '>' ['='] (by decide) (by decide)
          · constructor <;> decide
          · intro rs hsep
            exact grab_cmp2 '>' rs (Or.inr rfl)
          · decide
          · rfl
          · exact hpr

/-! #### Glue facts for composing printed texts and token runs -/

lemma toks_shape (toks pre : List String) (lst : String)
    (h : toks = pre ++ [lst]) : ∃ h0 tr, toks = h0 :: tr := by
  rcases pre with _ | ⟨p0, pr⟩
  · exact ⟨lst, [], by simp [h]⟩
  · exact ⟨p0, pr ++ [lst], by simp [h]⟩

lemma headPNS_append (s t : String) (h : headPNS s) : headPNS (s ++ t) := by
  obtain ⟨c, tr, htd, hcp, hcs⟩ := headPNS_shape s h
  unfold headPNS
  rw [string_data_append, htd]
  exact ⟨hcp, hcs⟩

lemma skipG_noop_append (s : String) (h : headPNS s) (rs : List Char) :
    skipG (s.data ++ rs) = s.data ++ rs := by
  apply skipG_noop
  obtain ⟨c, tr, htd, hcp, hcs⟩ := headPNS_shape s h
  intro x hx
  rw [htd] at hx
  simp at hx
  rw [← hx]
  exact ⟨hcp, hcs⟩

lemma eoiL_false_of_headPNS (s : String) (h : headPNS s) (rs : List Char) :
    eoiL (s.data ++ rs) = false := by
  obtain ⟨c, tr, htd, hcp, hcs⟩ := headPNS_shape s h
  rw [htd]
  simp [eoiL]
  rintro rfl
  simp [isPrintC] at hcp

/-- The tree bundle when the tail slot holds an atom: the pair prints as
`head . tail)`, the `.` re-lexes to no token (unknown character, skipped),
and the tree rule rebuilds exactly the pair, the tail collapsing into the
tail slot. -/
lemma TB_atom_tail (a d : Cell) (Sa : SB a) (Sd : SB d)
    (hdn : ¬ d = Cell.nullv)
    (htree : ∀ g : Nat,
      printLispTreeC (g + 1) a d =
        (match printLispObjectC g a with
         | none => none
         | some sa =>
           match printLispObjectC g d with
           | none => none
           | some sd => some (sa ++ " . " ++ sd ++ ")"))) :
    TB a d := by
  obtain ⟨txtA, toksA, hprA, hpnsA, hheadA, hcntA, hlexA, preA, lastA,
    htoksA, hparseA⟩ := Sa
  obtain ⟨txtD, toksD, hprD, hpnsD, hheadD, hcntD, hlexD, preD, lastD,
    htoksD, hparseD⟩ := Sd
  have hca := cellCount_pos a
  have hcd := cellCount_pos d
  have hlA : toksA.length = preA.length + 1 := by rw [htoksA]; simp
  have hlD : toksD.length = preD.length + 1 := by rw [htoksD]; simp
  obtain ⟨tA0, tAr, hA0⟩ := toks_shape toksA preA lastA htoksA
  obtain ⟨tD0, tDr, hD0⟩ := toks_shape toksD preD lastD htoksD
  have hheadA2 : ¬ firstChar tA0 = ')' := by rw [hA0] at hheadA; exact hheadA
  have hheadD2 : ¬ firstChar tD0 = ')' := by rw [hD0] at hheadD; exact hheadD
  refine ⟨txtA ++ " . " ++ txtD ++ ")", toksA ++ toksD ++ [")"],
    toksA ++ toksD, ?_, ?_, ?_, ?_, rfl, ?_, ?_⟩
  · -- printing
    intro f hf
    obtain ⟨g, rfl⟩ : ∃ g, f = g + 1 := ⟨f - 1, by omega⟩
    rw [htree g]
    simp only [hprA g (by omega), hprD g (by omega)]
  · exact headPNS_append _ _ (headPNS_append _ _ (headPNS_append _ _ hpnsA))
  · -- parenthesis counts
    rw [List.countP_append, List.countP_append, List.countP_append,
      List.countP_append]
    have h1 : List.countP isOpenTok [")"] = 0 := rfl
    have h2 : List.countP isCloseTok [")"] = 1 := rfl
    rw [h1, h2]
    omega
  · -- lexing
    rintro rs ts' hsep ⟨g, hg⟩
    have h1 : lexLoop (g + 1) (')' :: rs) = some (")" :: ts') := by
      rw [lexLoop_succ_grab g (')' :: rs) ")" rs rfl (grab_close rs)]
      simp only [hg]
    obtain ⟨g2, hg2⟩ := hlexD (')' :: rs) (")" :: ts')
      (Or.inr (Or.inr ⟨rs, rfl⟩)) ⟨g + 1, by rw [skipG_close]; exact h1⟩
    have h2 : lexLoop (g2 + 2) ('.' :: ' ' :: (txtD.data ++ ')' :: rs))
        = some (toksD ++ ")" :: ts') := by
      rw [lexLoop_succ_skip (g2 + 1) ('.' :: ' ' :: (txtD.data ++ ')' :: rs))
        rfl (grab_dot _)]
      rw [show (('.' :: ' ' :: (txtD.data ++ ')' :: rs) : List Char)).tail
        = ' ' :: (txtD.data ++ ')' :: rs) from rfl]
      rw [skipG_space, skipG_noop_append txtD hpnsD (')' :: rs)]
      exact lex_mono g2 _ _ hg2
    obtain ⟨gA, hgA⟩ := hlexA
      (' ' :: '.' :: ' ' :: (txtD.data ++ ')' :: rs)) (toksD ++ ")" :: ts')
      (Or.inr (Or.inl ⟨_, rfl⟩))
      ⟨g2 + 2, by rw [skipG_space, skipG_dot]; exact h2⟩
    refine ⟨gA, ?_⟩
    have hdata : (txtA ++ " . " ++ txtD ++ ")").data ++ rs
        = txtA.data ++ (' ' :: '.' :: ' ' :: (txtD.data ++ ')' :: rs)) := by
      simp [string_data_append]
    rw [hdata, hgA]
    simp
  · -- the body is nonempty
    simp [hA0]
  · -- parsing
    intro cur post f hf
    rw [List.length_append, hlA, hlD] at hf
    obtain ⟨f3, rfl⟩ : ∃ f3, f = f3 + 3 := ⟨f - 3, by omega⟩
    rw [show ((toksA ++ toksD) ++ ")" :: post : List String)
      = tA0 :: (tAr ++ (toksD ++ ")" :: post)) from by rw [hA0]; simp]
    have step : makeLispTreeF (f3 + 3)
        (cur :: tA0 :: (tAr ++ (toksD ++ ")" :: post)))
        = (if firstChar tA0 = ')' then
             some (Cell.nullv, tA0 :: (tAr ++ (toksD ++ ")" :: post)))
           else
             match makeLispObjectF (f3 + 2)
                 (tA0 :: (tAr ++ (toksD ++ ")" :: post))) with
             | none => none
             | some (car, ts1) =>
               match makeLispTreeF (f3 + 2) ts1 with
               | none => none
               | some (cdr, ts2) =>
                 if cdr = Cell.nullv then some (car, ts2)
                 else some (Cell.cellsv car cdr, ts2)) := rfl
    rw [step, if_neg hheadA2]
    have hobjA := hparseA (f3 + 2) (toksD ++ ")" :: post) (by omega)
    rw [hA0, List.cons_append] at hobjA
    simp only [hobjA]
    rw [show (toksD ++ ")" :: post : List String)
      = tD0 :: (tDr ++ ")" :: post) from by rw [hD0]; simp]
    have step2 : makeLispTreeF (f3 + 2)
        (lastA :: tD0 :: (tDr ++ ")" :: post))
        = (if firstChar tD0 = ')' then
             some (Cell.nullv, tD0 :: (tDr ++ ")" :: post))
           else
             match makeLispObjectF (f3 + 1) (tD0 :: (tDr ++ ")" :: post)) with
             | none => none
             | some (car, ts1) =>
               match makeLispTreeF (f3 + 1) ts1 with
               | none => none
               | some (cdr, ts2) =>
                 if cdr = Cell.nullv then some (car, ts2)
                 else some (Cell.cellsv car cdr, ts2)) := rfl
    rw [step2, if_neg hheadD2]
    have hobjD := hparseD (f3 + 1) (")" :: post) (by omega)
    rw [hD0, List.cons_append] at hobjD
    simp only [hobjD]
    have step3 : makeLispTreeF (f3 + 1) (lastD :: ")" :: post)
        = some (Cell.nullv, ")" :: post) := rfl
    simp only [step3]
    simp [hdn]

/-- The tree bundle when the tail slot holds another pair: the chain
continues with a space separator and the tree rule conses the head onto the
rest of the chain. -/
lemma TB_pair_tail (a x y : Cell) (Sa : SB a) (Txy : TB x y) :
    TB a (Cell.cellsv x y) := by
  obtain ⟨txtA, toksA, hprA, hpnsA, hheadA, hcntA, hlexA, preA, lastA,
    htoksA, hparseA⟩ := Sa
  obtain ⟨ttxt, ttoks, body, hprT, hpnsT, hcntT, hlexT, hbody, hblen,
    hparseT⟩ := Txy
  have hca := cellCount_pos a
  have hcx := cellCount_pos x
  have hcy := cellCount_pos y
  have hlA : toksA.length = preA.length + 1 := by rw [htoksA]; simp
  obtain ⟨tA0, tAr, hA0⟩ := toks_shape toksA preA lastA htoksA
  have hheadA2 : ¬ firstChar tA0 = ')' := by rw [hA0] at hheadA; exact hheadA
  have htree : ∀ g : Nat,
      printLispTreeC (g + 1) a (Cell.cellsv x y) =
        (match printLispObjectC g a with
         | none => none
         | some sa =>
           match printLispTreeC g x y with
           | none => none
           | some sd => some (sa ++ " " ++ sd)) := fun g => rfl
  refine ⟨txtA ++ " " ++ ttxt, toksA ++ ttoks, toksA ++ body,
    ?_, ?_, ?_, ?_, ?_, ?_, ?_⟩
  · -- printing
    intro f hf
    simp only [cellCount] at hf
    obtain ⟨g, rfl⟩ : ∃ g, f = g + 1 := ⟨f - 1, by omega⟩
    rw [htree g]
    simp only [hprA g (by omega), hprT g (by omega)]
  · exact headPNS_append _ _ (headPNS_append _ _ hpnsA)
  · -- parenthesis counts
    rw [List.countP_append, List.countP_append]
    omega
  · -- lexing
    rintro rs ts' hsep hev
    obtain ⟨g2, hg2⟩ := hlexT rs ts' hsep hev
    obtain ⟨gA, hgA⟩ := hlexA (' ' :: (ttxt.data ++ rs)) (ttoks ++ ts')
      (Or.inr (Or.inl ⟨_, rfl⟩))
      ⟨g2, by rw [skipG_space, skipG_noop_append ttxt hpnsT rs]; exact hg2⟩
    refine ⟨gA, ?_⟩
    have hdata : (txtA ++ " " ++ ttxt).data ++ rs
        = txtA.data ++ (' ' :: (ttxt.data ++ rs)) := by
      simp [string_data_append]
    rw [hdata, hgA]
    simp
  · -- token shape
    rw [hbody]
    simp
  · -- the body is nonempty
    simp [hA0]
  · -- parsing
    intro cur post f hf
    rw [List.length_append, hlA] at hf
    obtain ⟨f1, rfl⟩ : ∃ f1, f = f1 + 1 := ⟨f - 1, by omega⟩
    rw [show ((toksA ++ body) ++ ")" :: post : List String)
      = tA0 :: (tAr ++ (body ++ ")" :: post)) from by rw [hA0]; simp]
    have step : makeLispTreeF (f1 + 1)
        (cur :: tA0 :: (tAr ++ (body ++ ")" :: post)))
        = (if firstChar tA0 = ')' then
             some (Cell.nullv, tA0 :: (tAr ++ (body ++ ")" :: post)))
           else
             match makeLispObjectF f1
                 (tA0 :: (tAr ++ (body ++ ")" :: post))) with
             | none => none
             | some (car, ts1) =>
               match makeLispTreeF f1 ts1 with
               | none => none
               | some (cdr, ts2) =>
                 if cdr = Cell.nullv then some (car, ts2)
                 else some (Cell.cellsv car cdr, ts2)) := rfl
    rw [step, if_neg hheadA2]
    have hobjA := hparseA f1 (body ++ ")" :: post) (by omega)
    rw [hA0, List.cons_append] at hobjA
    simp only [hobjA]
    have htreeXY := hparseT lastA post f1 (by omega)
    simp only [htreeXY]
    simp

/-- Any round-trippable tail yields the tree bundle, given the object
bundle on every strictly smaller round-trippable cell. -/
lemma TB_of (d : Cell) : ∀ a : Cell, goodRead a = true → goodRead d = true →
    (∀ w, cellCount w < cellCount a + cellCount d + 1 → goodRead w = true →
      SB w) →
    TB a d := by
  induction d with
  | nullv => intro a _ hgd _; simp [goodRead] at hgd
  | intv n =>
    intro a hga hgd H
    have hca := cellCount_pos a
    exact TB_atom_tail a (Cell.intv n)
      (H a (by simp [cellCount]; omega) hga)
      (SB_int n (by simpa [goodRead] using hgd))
      (by simp) (fun g => rfl)
  | fltv => intro a _ hgd _; simp [goodRead] at hgd
  | strv s =>
    intro a hga hgd H
    have hca := cellCount_pos a
    exact TB_atom_tail a (Cell.strv s)
      (H a (by simp [cellCount]; omega) hga)
      (SB_str s (by simpa [goodRead] using hgd))
      (by simp) (fun g => rfl)
  | symv s =>
    intro a hga hgd H
    have hca := cellCount_pos a
    exact TB_atom_tail a (Cell.symv s)
      (H a (by simp [cellCount]; omega) hga)
      (SB_sym s (by simpa [goodRead] using hgd))
      (by simp) (fun g => rfl)
  | procv p => intro a _ hgd _; simp [goodRead] at hgd
  | cellsv x y ihx ihy =>
    intro a hga hgd H
    have hca := cellCount_pos a
    have hcx := cellCount_pos x
    have hcy := cellCount_pos y
    have hgx : goodRead x = true := by
      simp [goodRead] at hgd; exact hgd.1
    have hgy : goodRead y = true := by
      simp [goodRead] at hgd; exact hgd.2
    apply TB_pair_tail a x y
    · exact H a (by simp [cellCount]; omega) hga
    · exact ihy x hgx hgy (fun w hw hgw => H w
        (by simp [cellCount] at hw ⊢; omega) hgw)
  | lamv ps bd e => intro a _ hgd _; simp [goodRead] at hgd
  | sFalse => intro a _ hgd _; simp [goodRead] at hgd
  | sTrue => intro a _ hgd _; simp [goodRead] at hgd
  | sNil => intro a _ hgd _; simp [goodRead] at hgd
  | sBad => intro a _ hgd _; simp [goodRead] at hgd

/-- The object bundle for a pair, from its tree bundle: prepend `(`. -/
lemma SB_pair (a d : Cell) (T : TB a d) : SB (Cell.cellsv a d) := by
  obtain ⟨ttxt, ttoks, body, hpr, hpns, hcnt, hlex, hbody, hblen, hparse⟩ := T
  have hca := cellCount_pos a
  have hcd := cellCount_pos d
  refine ⟨"(" ++ ttxt, "(" :: ttoks, ?_, ?_, ?_, ?_, ?_, ?_⟩
  · -- printing
    intro f hf
    simp only [cellCount] at hf
    obtain ⟨g, rfl⟩ : ∃ g, f = g + 1 := ⟨f - 1, by omega⟩
    have hstep : printLispObjectC (g + 1) (Cell.cellsv a d)
        = (match printLispTreeC g a d with
           | none => none
           | some s => some ("(" ++ s)) := rfl
    rw [hstep]
    simp only [hpr g (by omega)]
  · unfold headPNS
    rw [string_data_append]
    exact ⟨by decide, by decide⟩
  · exact (by decide : ¬ firstChar "(" = ')')
  · -- parenthesis counts
    rw [List.countP_cons, List.countP_cons]
    have h1 : isOpenTok "(" = true := rfl
    have h2 : isCloseTok "(" = false := rfl
    rw [h1, h2]
    simp
    omega
  · -- lexing
    rintro rs ts' hsep hev
    obtain ⟨g2, hg2⟩ := hlex rs ts' hsep hev
    refine ⟨g2 + 1, ?_⟩
    have hdata : ("(" ++ ttxt).data ++ rs = '(' :: (ttxt.data ++ rs) := by
      simp [string_data_append]
    rw [hdata]
    rw [lexLoop_succ_grab g2 ('(' :: (ttxt.data ++ rs)) "(" (ttxt.data ++ rs)
      rfl (grab_open _)]
    rw [skipG_noop_append ttxt hpns rs]
    simp only [hg2]
    rfl
  · -- parsing
    refine ⟨"(" :: body, ")", by rw [hbody]; simp, ?_⟩
    intro f post hf
    simp only [List.length_cons, hbody, List.length_append] at hf
    obtain ⟨f1, rfl⟩ : ∃ f1, f = f1 + 1 := ⟨f - 1, by omega⟩
    have hshape : (("(" :: ttoks) ++ post : List String)
        = "(" :: (body ++ ")" :: post) := by
      rw [hbody]; simp
    rw [hshape]
    have hstep : makeLispObjectF (f1 + 1) ("(" :: (body ++ ")" :: post))
        = makeLispTreeF f1 ("(" :: (body ++ ")" :: post)) := rfl
    rw [hstep]
    exact hparse "(" post f1 (by simp at hf; omega)

/-- Every round-trippable tree satisfies the object bundle. -/
lemma SB_all : ∀ (n : Nat) (v : Cell), cellCount v ≤ n → goodRead v = true →
    SB v := by
  intro n
  induction n using Nat.strong_induction_on with
  | _ n IH =>
    intro v hn hv
    match v, hv with
    | Cell.intv m, hv => exact SB_int m (by simpa [goodRead] using hv)
    | Cell.symv s, hv => exact SB_sym s (by simpa [goodRead] using hv)
    | Cell.strv s, hv => exact SB_str s (by simpa [goodRead] using hv)
    | Cell.cellsv a d, hv =>
      have hga : goodRead a = true := by simp [goodRead] at hv; exact hv.1
      have hgd : goodRead d = true := by simp [goodRead] at hv; exact hv.2
      have hsz : cellCount a + cellCount d + 1 ≤ n := by
        simpa [cellCount] using hn
      apply SB_pair a d
      apply TB_of d a hga hgd
      intro w hw hgw
      exact IH (cellCount w) (by omega) w le_rfl hgw

/-- C9 amended: on the round-trippable fragment of the reader grammar —
trees whose pairs have both fields present and whose atoms are non-negative
integers, already-lower-case single-token symbols, or closed safe string
literals — `Read` is a left inverse of `Print`: printing such a tree
succeeds and re-reading the printed line yields the identical tree.  (The
final tail of a chain prints after `.`; the re-lex drops the unknown `.`
and the tree rule puts the final object back in the tail slot.) -/
theorem C9_roundtrip_amended (v : Cell) (hv : goodRead v = true) :
    ∃ s, printLispObjectC (cellCount v) v = some s ∧ ReadC s = some v := by
  obtain ⟨txt, toks, hpr, hpns, hhead, hcnt, hlex, pre, lst, htoks, hparse⟩ :=
    SB_all (cellCount v) v le_rfl hv
  refine ⟨txt, hpr (cellCount v) le_rfl, ?_⟩
  obtain ⟨c, tr, htd, hcp, hcs⟩ := headPNS_shape txt hpns
  have hdw : txt.data.dropWhile (fun c => isSpaceC c || !isPrintC c)
      = txt.data := by
    rw [htd, List.dropWhile_cons, if_neg (by simp [hcp, hcs])]
  have hall : txt.data.all (fun c => isSpaceC c || !isPrintC c) = false := by
    rw [htd]
    simp [hcp, hcs]
  have htok : tokenizeC txt = some toks := by
    unfold tokenizeC
    rw [if_neg (by simp [hall])]
    simp only [hdw]
    obtain ⟨g, hg⟩ := hlex [] [] (Or.inl rfl) ⟨1, rfl⟩
    simp at hg
    exact lex_adequate g txt.data toks hg _ (by omega)
  unfold ReadC
  simp only [htok]
  rw [if_pos hcnt]
  have hp := hparse (2 * toks.length + 4) [] (by omega)
  rw [List.append_nil] at hp
  simp only [hp]

/-- Witness: the pair `(abc . 5)` — printed from `cons(symbol abc, 5)` —
round-trips. -/
theorem C9_roundtrip_amended_witness :
    goodRead (Cell.cellsv (Cell.symv "abc") (Cell.intv 5)) = true ∧
    ∃ s, printLispObjectC
        (cellCount (Cell.cellsv (Cell.symv "abc") (Cell.intv 5)))
        (Cell.cellsv (Cell.symv "abc") (Cell.intv 5)) = some s
      ∧ ReadC s = some (Cell.cellsv (Cell.symv "abc") (Cell.intv 5)) :=
  ⟨by decide, C9_roundtrip_amended _ (by decide)⟩

/-! #### One object's token run, atoms and nested subtrees alike (C8) -/

/-- A token run that builds one object: its first token does not close a
list, and for any following tokens the object rule consumes the run, leaving
the cursor on the run's last token (the token itself for an atom, the
matching `)` for a parenthesised subtree). -/
def ObjRun (toks : List String) (v : Cell) : Prop :=
  (match toks with
   | [] => False
   | h :: _ => ¬ firstChar h = ')') ∧
  ∃ pre lst, toks = pre ++ [lst] ∧
    ∀ f post, 2 * toks.length + 2 ≤ f →
      makeLispObjectF f (toks ++ post) = some (v, lst :: post)

/-- The value the tree rule builds from a run of objects: a right-nested
chain of pairs with the last value directly in the final tail slot. -/
def chainVal : List (List String × Cell) → Cell
  | [] => Cell.nullv
  | p :: ps => chainCells p.2 (ps.map Prod.snd)

lemma chainVal_cons (x : List String × Cell) (ps : List (List String × Cell))
    (h : ¬ ps = []) : chainVal (x :: ps) = Cell.cellsv x.2 (chainVal ps) := by
  rcases ps with _ | ⟨y, ys⟩
  · exact absurd rfl h
  · simp [chainVal, chainCells]

lemma chainVal_ne_null (ps : List (List String × Cell))
    (o : List String × Cell) (hlast : ¬ o.2 = Cell.nullv) :
    ¬ chainVal (ps ++ [o]) = Cell.nullv := by
  rcases ps with _ | ⟨y, ys⟩
  · simpa [chainVal, chainCells] using hlast
  · rw [List.cons_append, chainVal_cons y (ys ++ [o]) (by simp)]
    simp

/-- An atom token is a one-token object run. -/
lemma objRun_atom (t : String)
    (h : ¬ firstChar t = '(' ∧ ¬ firstChar t = ')') :
    ObjRun [t] (objOf t) := by
  refine ⟨h.2, [], t, rfl, ?_⟩
  intro f post hf
  obtain ⟨g, rfl⟩ : ∃ g, f = g + 1 := ⟨f - 1, by omega⟩
  exact object_simple g t post h.1

/-- The tree rule on a run of object runs closed by `)`: it builds the
right-nested chain, placing the last object's value in the final tail slot,
and leaves the cursor on the `)`. -/
lemma treeRun : ∀ (objs : List (List String × Cell))
    (o : List String × Cell),
    (∀ p ∈ objs ++ [o], ObjRun p.1 p.2) → ¬ o.2 = Cell.nullv →
    ∀ (cur : String) (post : List String) (f : Nat),
    2 * ((objs ++ [o]).map Prod.fst).flatten.length + 3 ≤ f →
    makeLispTreeF f
        (cur :: (((objs ++ [o]).map Prod.fst).flatten ++ ")" :: post))
      = some (chainVal (objs ++ [o]), ")" :: post) := by
  intro objs
  induction objs with
  | nil =>
    intro o hobjs hlast cur post f hf
    obtain ⟨hhead, pre, lst, htoks, hparse⟩ := hobjs o (by simp)
    obtain ⟨h0, tr, he⟩ := toks_shape o.1 pre lst htoks
    have hhead2 : ¬ firstChar h0 = ')' := by rw [he] at hhead; exact hhead
    have hlen : o.1.length = pre.length + 1 := by rw [htoks]; simp
    have hfl : ((([] : List (List String × Cell)) ++ [o]).map
        Prod.fst).flatten = o.1 := by simp
    rw [hfl] at hf ⊢
    obtain ⟨f2, rfl⟩ : ∃ f2, f = f2 + 2 := ⟨f - 2, by omega⟩
    rw [show o.1 ++ ")" :: post = h0 :: (tr ++ ")" :: post) from by
      rw [he]; simp]
    have step : makeLispTreeF (f2 + 2) (cur :: h0 :: (tr ++ ")" :: post))
        = (if firstChar h0 = ')' then
             some (Cell.nullv, h0 :: (tr ++ ")" :: post))
           else
             match makeLispObjectF (f2 + 1) (h0 :: (tr ++ ")" :: post)) with
             | none => none
             | some (car, ts1) =>
               match makeLispTreeF (f2 + 1) ts1 with
               | none => none
               | some (cdr, ts2) =>
                 if cdr = Cell.nullv then some (car, ts2)
                 else some (Cell.cellsv car cdr, ts2)) := rfl
    rw [step, if_neg hhead2]
    have hobj := hparse (f2 + 1) (")" :: post) (by omega)
    rw [he, List.cons_append] at hobj
    simp only [hobj]
    have step2 : makeLispTreeF (f2 + 1) (lst :: ")" :: post)
        = some (Cell.nullv, ")" :: post) := rfl
    simp only [step2]
    simp [chainVal, chainCells]
  | cons x rest ih =>
    intro o hobjs hlast cur post f hf
    obtain ⟨hheadx, prex, lstx, htoksx, hparsex⟩ := hobjs x (by simp)
    obtain ⟨h0, tr, he⟩ := toks_shape x.1 prex lstx htoksx
    have hhead2 : ¬ firstChar h0 = ')' := by rw [he] at hheadx; exact hheadx
    have hlenx : x.1.length = prex.length + 1 := by rw [htoksx]; simp
    have hrlen : 1 ≤ ((rest ++ [o]).map Prod.fst).flatten.length := by
      obtain ⟨_, preo, lsto, htokso, _⟩ := hobjs o (by simp)
      have hlo : o.1.length = preo.length + 1 := by rw [htokso]; simp
      simp [List.map_append, List.flatten_append]
      omega
    simp only [List.cons_append, List.map_cons, List.flatten_cons,
      List.length_append] at hf ⊢
    obtain ⟨f1, rfl⟩ : ∃ f1, f = f1 + 1 := ⟨f - 1, by omega⟩
    rw [show (x.1 ++ ((rest ++ [o]).map Prod.fst).flatten) ++ ")" :: post
      = h0 :: (tr ++ (((rest ++ [o]).map Prod.fst).flatten ++ ")" :: post))
      from by rw [he]; simp]
    have step : makeLispTreeF (f1 + 1) (cur :: h0 ::
          (tr ++ (((rest ++ [o]).map Prod.fst).flatten ++ ")" :: post)))
        = (if firstChar h0 = ')' then
             some (Cell.nullv, h0 ::
               (tr ++ (((rest ++ [o]).map Prod.fst).flatten ++ ")" :: post)))
           else
             match makeLispObjectF f1 (h0 ::
                 (tr ++ (((rest ++ [o]).map Prod.fst).flatten
                   ++ ")" :: post))) with
             | none => none
             | some (car, ts1) =>
               match makeLispTreeF f1 ts1 with
               | none => none
               | some (cdr, ts2) =>
                 if cdr = Cell.nullv then some (car, ts2)
                 else some (Cell.cellsv car cdr, ts2)) := rfl
    rw [step, if_neg hhead2]
    have hobjx := hparsex f1
      (((rest ++ [o]).map Prod.fst).flatten ++ ")" :: post) (by omega)
    rw [he, List.cons_append] at hobjx
    simp only [hobjx]
    have hih := ih o (fun p hp => hobjs p (by simp at hp ⊢; tauto))
      hlast lstx post f1 (by omega)
    simp only [hih]
    rw [if_neg (chainVal_ne_null rest o hlast)]
    rw [chainVal_cons x (rest ++ [o]) (by simp)]

/-- A parenthesised run of one or more objects whose final object builds a
present value is itself an object run: the whole subtree ends on its
matching `)` (a single-object list collapses to that object). -/
lemma objRun_paren (objs : List (List String × Cell))
    (o : List String × Cell)
    (hobjs : ∀ p ∈ objs ++ [o], ObjRun p.1 p.2)
    (hlast : ¬ o.2 = Cell.nullv) :
    ObjRun ("(" :: (((objs ++ [o]).map Prod.fst).flatten ++ [")"]))
      (chainVal (objs ++ [o])) := by
  refine ⟨(show ¬ firstChar "(" = ')' by decide),
    "(" :: ((objs ++ [o]).map Prod.fst).flatten, ")", by simp, ?_⟩
  intro f post hf
  have hlen2 : ("(" :: (((objs ++ [o]).map Prod.fst).flatten
      ++ [")"])).length = ((objs ++ [o]).map Prod.fst).flatten.length + 2 := by
    simp
    omega
  rw [hlen2] at hf
  obtain ⟨f1, rfl⟩ : ∃ f1, f = f1 + 1 := ⟨f - 1, by omega⟩
  rw [show ("(" :: (((objs ++ [o]).map Prod.fst).flatten ++ [")"])) ++ post
    = "(" :: (((objs ++ [o]).map Prod.fst).flatten ++ ")" :: post)
    from by simp]
  have hstep : makeLispObjectF (f1 + 1)
      ("(" :: (((objs ++ [o]).map Prod.fst).flatten ++ ")" :: post))
      = makeLispTreeF f1
        ("(" :: (((objs ++ [o]).map Prod.fst).flatten ++ ")" :: post)) := rfl
  rw [hstep]
  exact treeRun objs o hobjs hlast "(" post f1 (by omega)

/-- C8 amended: consuming `(`, then two or more objects — atom tokens or
nested parenthesised subtrees, the final object building a present value —
then the matching `)`, the tree builder returns a right-nested chain of
pairs in which every object's value fills a car slot except the last, which
is placed directly in the final tail slot (so `(1 2 3)` reads as
`cons(1, cons(2, 3))` and `(1 (2 3))` as `cons(1, cons(2, 3))` with the
nested pair itself in the tail slot); the cursor is left on the `)`. -/
theorem C8_tree_builder_chain (t o : List String × Cell)
    (r : List (List String × Cell)) (post : List String)
    (hobjs : ∀ p ∈ t :: (r ++ [o]), ObjRun p.1 p.2)
    (hlast : ¬ o.2 = Cell.nullv) :
    makeLispObjectF
        (2 * ((t :: (r ++ [o])).map Prod.fst).flatten.length + 4)
        ("(" :: (((t :: (r ++ [o])).map Prod.fst).flatten ++ ")" :: post))
      = some (chainCells t.2 ((r ++ [o]).map Prod.snd), ")" :: post) := by
  have hstep : makeLispObjectF
      (2 * ((t :: (r ++ [o])).map Prod.fst).flatten.length + 4)
      ("(" :: (((t :: (r ++ [o])).map Prod.fst).flatten ++ ")" :: post))
      = makeLispTreeF
        (2 * ((t :: (r ++ [o])).map Prod.fst).flatten.length + 3)
        ("(" :: (((t :: (r ++ [o])).map Prod.fst).flatten ++ ")" :: post))
      := rfl
  rw [hstep]
  exact treeRun (t :: r) o hobjs hlast "(" post
    (2 * (((t :: r) ++ [o]).map Prod.fst).flatten.length + 3) (by omega)

/-- Witness for C8's amended claim at the nested input `( 1 ( 2 3 ) )`. -/
theorem C8_tree_builder_chain_witness :
    ((∀ p ∈ [((["1"] : List String), Cell.intv 1),
        (["(", "2", "3", ")"], Cell.cellsv (Cell.intv 2) (Cell.intv 3))],
        ObjRun p.1 p.2)
      ∧ ¬ Cell.cellsv (Cell.intv 2) (Cell.intv 3) = Cell.nullv) ∧
    makeLispObjectF 14 ["(", "1", "(", "2", "3", ")", ")"]
      = some (Cell.cellsv (Cell.intv 1)
          (Cell.cellsv (Cell.intv 2) (Cell.intv 3)), [")"]) := by
  have hobjs : ∀ p ∈ [((["1"] : List String), Cell.intv 1),
      (["(", "2", "3", ")"], Cell.cellsv (Cell.intv 2) (Cell.intv 3))],
      ObjRun p.1 p.2 := by
    intro p hp
    simp at hp
    rcases hp with rfl | rfl
    · exact objRun_atom "1" (by decide)
    · exact objRun_paren [(["2"], Cell.intv 2)] (["3"], Cell.intv 3)
        (by
          intro q hq
          simp at hq
          rcases hq with rfl | rfl
          · exact objRun_atom "2" (by decide)
          · exact objRun_atom "3" (by decide))
        (by decide)
  exact ⟨⟨hobjs, by decide⟩,
    C8_tree_builder_chain (["1"], Cell.intv 1)
      (["(", "2", "3", ")"], Cell.cellsv (Cell.intv 2) (Cell.intv 3)) [] []
      hobjs (by decide)⟩

end CppLisp
